import Mathlib

/-!
Verification development for the ADIv5 DAP / MEM-AP driver
(`src/target/arm_adi_v5.c`).

The C code is shallowly embedded as pure Lean functions.  Machine
integers (`uint32_t`) are modelled as `Nat` with explicit `% 2 ^ 32`
reductions at the points where the C arithmetic can wrap.  The transport
queue (`dap_queue_ap_write` / `dap_queue_ap_read`) is modelled as
always accepting the operation; the synchronous flush `dap_run` is
modelled by a boolean outcome parameter, and the atomic-read helpers
used by the ROM walker are modelled by a read oracle
`Nat → Except Res Nat` mapping an address to a word or an error.

Register-layout constants live in `arm_adi_v5.h`, which is not part of
the sources; each such constant is modelled from the spec (its section
6.4 gives them bit-exactly).
-/

/-- Error taxonomy of the driver (spec section 7).  The C code uses
integer codes (`ERROR_OK`, `ERROR_TARGET_UNALIGNED_ACCESS`,
`ERROR_TARGET_RESOURCE_NOT_AVAILABLE`, `ERROR_FAIL`) defined outside
the sources; the sum type follows the spec's taxonomy.  `outOfFuel` is
a model artifact marking exhaustion of the explicit recursion fuel of
the loop embeddings (the C loops have no such bound). -/
inductive Res where
| ok
| fault
| unalignedAccess
| notFound
| timeout
| wait
| outOfMemory
| outOfFuel
deriving DecidableEq, Repr

/-- Modelled from the spec: CSW size field value for 8-bit accesses. -/
def CSW_8BIT : Nat := 0

/-- Modelled from the spec: CSW size field value for 16-bit accesses. -/
def CSW_16BIT : Nat := 1

/-- Modelled from the spec: CSW size field value for 32-bit accesses. -/
def CSW_32BIT : Nat := 2

/-- Modelled from the spec: CSW address-increment off. -/
def CSW_ADDRINC_OFF : Nat := 0

/-- Modelled from the spec: CSW address-increment single. -/
def CSW_ADDRINC_SINGLE : Nat := 0x10

/-- Modelled from the spec: CSW address-increment packed. -/
def CSW_ADDRINC_PACKED : Nat := 0x20

/-- Modelled from the spec: mask of the CSW address-increment field (bits 5:4). -/
def CSW_ADDRINC_MASK : Nat := 0x30

/-- Modelled from the spec: CSW DbgSwEnable bit. -/
def CSW_DBGSWENABLE : Nat := 1 <<< 31

/-- Modelled from the spec: CSW master-debug bit. -/
def CSW_MASTER_DEBUG : Nat := 1 <<< 29

/-- Modelled from the spec: CSW HPROT1 bit. -/
def CSW_HPROT : Nat := 1 <<< 25

/-- Modelled from the spec: CTRL/STAT overrun-detect enable bit. -/
def CORUNDETECT : Nat := 1 <<< 0

/-- Modelled from the spec: CTRL/STAT sticky-error bit. -/
def SSTICKYERR : Nat := 1 <<< 5

/-- Modelled from the spec: CTRL/STAT debug power-up request bit. -/
def CDBGPWRUPREQ : Nat := 1 <<< 28

/-- Modelled from the spec: CTRL/STAT system power-up request bit. -/
def CSYSPWRUPREQ : Nat := 1 <<< 30

/-- The mutable per-AP state of `struct adiv5_ap` that the block engine
and the register layer read and write: the CSW and TAR shadows and the
configuration fields.  The DAP back pointer is represented by passing
the `ti_be_32_quirks` flag explicitly where the C reads `dap->…`. -/
structure Ap where
  csw_value : Nat
  tar_value : Nat
  csw_default : Nat
  tar_autoincr_block : Nat
  packed_transfers : Bool
  unaligned_access_bad : Bool
deriving DecidableEq, Repr

/-- `max_tar_block_size` from the source: the largest block starting at
`address` that does not cross a `tar_autoincr_block` alignment
boundary. -/
def max_tar_block_size (tar_autoincr_block address : Nat) : Nat :=
  tar_autoincr_block - ((tar_autoincr_block - 1) &&& address)

/-- `mem_ap_setup_csw`: ORs the fixed control bits and `csw_default`
into the requested CSW; queues an AP write to CSW (returned as
`some value`) and updates the shadow only when the effective value
differs from the cached one.  Queueing itself is modelled as always
succeeding. -/
def mem_ap_setup_csw (ap : Ap) (csw : Nat) : Ap × Option Nat :=
  let c := csw ||| CSW_DBGSWENABLE ||| CSW_MASTER_DEBUG ||| CSW_HPROT |||
    ap.csw_default
  if c ≠ ap.csw_value then ({ ap with csw_value := c }, some c)
  else (ap, none)

/-- `mem_ap_setup_tar`: queues an AP write to TAR (returned as
`some tar`) and updates the shadow when the value differs from the
cached one or the cached CSW has a non-off auto-increment mode. -/
def mem_ap_setup_tar (ap : Ap) (tar : Nat) : Ap × Option Nat :=
  if tar ≠ ap.tar_value ∨ ap.csw_value &&& CSW_ADDRINC_MASK ≠ 0 then
    ({ ap with tar_value := tar }, some tar)
  else (ap, none)

/-- The `addr_xor` value computed by the size dispatch at the top of
`mem_ap_write`: 0 for size 4, and under the TI BE-32 quirk 2 for
size 2 and 3 for size 1 (otherwise 0). -/
def addr_xor_of (quirks : Bool) (size : Nat) : Nat :=
  if size = 4 then 0
  else if size = 2 then (if quirks then 2 else 0)
  else if size = 1 then (if quirks then 3 else 0)
  else 0

/-- The CSW size field selected for a given access size. -/
def csw_size_of (size : Nat) : Nat :=
  if size = 4 then CSW_32BIT
  else if size = 2 then CSW_16BIT
  else CSW_8BIT

/-- The effective CSW value `mem_ap_setup_csw` produces for a
single-increment transfer of the given size field: the requested bits
ORed with the fixed control bits and `csw_default`. -/
def eff_csw (cs d : Nat) : Nat :=
  cs ||| CSW_ADDRINC_SINGLE ||| CSW_DBGSWENABLE ||| CSW_MASTER_DEBUG |||
    CSW_HPROT ||| d

/-- Byte lane (0..3) of the DRW word receiving the byte at host offset
`i` of the current transfer, as computed by the switch in
`mem_ap_write`: `(address + i) & 3` normally, and
`(this_size - 1) ^ ((address + i) & 3) ^ addr_xor` under the TI BE-32
quirk (the source writes the constant `3`, `1` or `0` per case of
`this_size`). -/
def write_lane (quirks : Bool) (this_size address addr_xor i : Nat) : Nat :=
  if quirks then ((this_size - 1) ^^^ ((address + i) % 4)) ^^^ addr_xor
  else (address + i) % 4

/-- The DRW `outvalue` assembled by one iteration of the `mem_ap_write`
loop: the switch on `this_size` ORs in one shifted source byte per
consumed host byte (the case-4 arm of the source falls through the
case-2 and case-1 arms, consuming 4 bytes in total). -/
def drw_outvalue (quirks : Bool) (this_size address addr_xor : Nat)
    (buf : List Nat) : Nat :=
  match this_size with
  | 4 =>
    (buf.getD 0 0) <<< (8 * write_lane quirks 4 address addr_xor 0) |||
    (buf.getD 1 0) <<< (8 * write_lane quirks 4 address addr_xor 1) |||
    (buf.getD 2 0) <<< (8 * write_lane quirks 4 address addr_xor 2) |||
    (buf.getD 3 0) <<< (8 * write_lane quirks 4 address addr_xor 3)
  | 2 =>
    (buf.getD 0 0) <<< (8 * write_lane quirks 2 address addr_xor 0) |||
    (buf.getD 1 0) <<< (8 * write_lane quirks 2 address addr_xor 1)
  | _ =>
    (buf.getD 0 0) <<< (8 * write_lane quirks this_size address addr_xor 0)

/-- One iteration of the block-engine write loop: the CSW write queued
by `mem_ap_setup_csw` (if any), the queued DRW value, and the TAR
write queued after the DRW (if any). -/
structure WIter where
  cswOp : Option Nat
  drw : Nat
  tarOp : Option Nat
deriving DecidableEq, Repr

/-- The `while (nbytes > 0)` loop of `mem_ap_write`.  `fuel` bounds the
number of iterations; the top-level entry passes `fuel = nbytes`, which
suffices because every reachable iteration consumes at least one byte
(`size ∈ {1,2,4}` is enforced before the loop runs). -/
def mem_ap_write_loop (quirks : Bool) (ap : Ap) (buf : List Nat)
    (size addr_xor csw_size csw_addrincr : Nat) (addrinc : Bool)
    (address nbytes fuel : Nat) : Ap × List WIter :=
  match fuel with
  | 0 => (ap, [])
  | fuel + 1 =>
    if nbytes = 0 then (ap, [])
    else
      let packed := addrinc ∧ ap.packed_transfers ∧ nbytes ≥ 4 ∧
        max_tar_block_size ap.tar_autoincr_block address ≥ 4
      let this_size := if packed then 4 else size
      let csw1 := mem_ap_setup_csw ap
        (if packed then csw_size ||| CSW_ADDRINC_PACKED
         else csw_size ||| csw_addrincr)
      let outvalue := drw_outvalue quirks this_size address addr_xor buf
      let address' := (address + this_size) % 2 ^ 32
      let nbytes' := nbytes - this_size
      let tar1 :=
        if addrinc ∧ (addr_xor ≠ 0 ∨
            (address' % csw1.1.tar_autoincr_block < size ∧ nbytes' > 0)) then
          mem_ap_setup_tar csw1.1 (address' ^^^ addr_xor)
        else (csw1.1, none)
      let rest := mem_ap_write_loop quirks tar1.1 (buf.drop this_size) size
        addr_xor csw_size csw_addrincr addrinc address' nbytes' fuel
      (rest.1, ⟨csw1.2, outvalue, tar1.2⟩ :: rest.2)

/-- Result of `mem_ap_write`: return status, updated AP state, the TAR
write queued by the initial `mem_ap_setup_tar` (if any), and the loop
iterations.  On flush failure the source additionally queues a TAR
read purely to log the failure address; that diagnostic is not part of
the model. -/
structure WriteRes where
  res : Res
  ap : Ap
  tar0 : Option Nat
  iters : List WIter
deriving DecidableEq, Repr

/-- `mem_ap_write`: size dispatch, unaligned-access check, initial TAR
setup, transfer loop, final flush (`runOk` is the modelled outcome of
the `dap_run` call). -/
def mem_ap_write (quirks : Bool) (ap : Ap) (buf : List Nat)
    (size count address : Nat) (addrinc runOk : Bool) : WriteRes :=
  let nbytes := size * count % 2 ^ 32
  let csw_addrincr := if addrinc then CSW_ADDRINC_SINGLE else CSW_ADDRINC_OFF
  if size = 4 ∨ size = 2 ∨ size = 1 then
    let csw_size := csw_size_of size
    let addr_xor := addr_xor_of quirks size
    if ap.unaligned_access_bad ∧ address % size ≠ 0 then
      ⟨.unalignedAccess, ap, none, []⟩
    else
      let tar0 := mem_ap_setup_tar ap (address ^^^ addr_xor)
      let lp := mem_ap_write_loop quirks tar0.1 buf size addr_xor csw_size
        csw_addrincr addrinc address nbytes nbytes
      ⟨if runOk then .ok else .fault, lp.1, tar0.2, lp.2⟩
  else ⟨.unalignedAccess, ap, none, []⟩

/-- `mem_ap_write_buf`: block write with address increment. -/
def mem_ap_write_buf (quirks : Bool) (ap : Ap) (buf : List Nat)
    (size count address : Nat) (runOk : Bool) : WriteRes :=
  mem_ap_write quirks ap buf size count address true runOk

/-- `mem_ap_write_buf_noincr`: block write without address increment. -/
def mem_ap_write_buf_noincr (quirks : Bool) (ap : Ap) (buf : List Nat)
    (size count address : Nat) (runOk : Bool) : WriteRes :=
  mem_ap_write quirks ap buf size count address false runOk

example :
    let ap : Ap := ⟨0, 0, 0, 1 <<< 10, false, false⟩
    let r := mem_ap_write_buf false ap [0xAA, 0xBB, 0xCC] 1 3 0x100 true
    r.res = .ok ∧ r.tar0 = some 0x100 ∧
      r.iters.map (·.drw) = [0xAA, 0xBB00, 0xCC0000] ∧
      r.iters.map (·.tarOp) = [none, none, none] := by decide

example :
    let ap : Ap := ⟨0, 0, 0, 1 <<< 10, false, true⟩
    let r := mem_ap_write_buf true ap [0xAA, 0xBB, 0xCC] 1 3 0x100 true
    r.res = .ok ∧ r.tar0 = some 0x103 ∧
      r.iters.map (·.drw) = [0xAA000000, 0xBB0000, 0xCC00] ∧
      r.iters.map (·.tarOp) = [some 0x102, some 0x101, some 0x100] := by decide

/-- One iteration of the block-engine read queue loop: the CSW write
queued by `mem_ap_setup_csw` (if any), the implicit queued DRW read,
and the TAR write queued after it (if any). -/
structure RIter where
  cswOp : Option Nat
  tarOp : Option Nat
deriving DecidableEq, Repr

/-- The read-side `while (nbytes > 0)` queueing loop of `mem_ap_read`.
`fuel` is instantiated with `nbytes` by the entry point, which
suffices because `size ∈ {1,2,4}` is enforced before the loop. -/
def mem_ap_read_loop (ap : Ap) (size csw_size csw_addrincr : Nat)
    (addrinc : Bool) (address nbytes fuel : Nat) : Ap × List RIter :=
  match fuel with
  | 0 => (ap, [])
  | fuel + 1 =>
    if nbytes = 0 then (ap, [])
    else
      let packed := addrinc ∧ ap.packed_transfers ∧ nbytes ≥ 4 ∧
        max_tar_block_size ap.tar_autoincr_block address ≥ 4
      let this_size := if packed then 4 else size
      let csw1 := mem_ap_setup_csw ap
        (if packed then csw_size ||| CSW_ADDRINC_PACKED
         else csw_size ||| csw_addrincr)
      let nbytes' := nbytes - this_size
      let address' := (address + this_size) % 2 ^ 32
      let tar1 :=
        if addrinc ∧ address' % csw1.1.tar_autoincr_block < size ∧
            nbytes' > 0 then
          mem_ap_setup_tar csw1.1 address'
        else (csw1.1, none)
      let rest := mem_ap_read_loop tar1.1 size csw_size csw_addrincr addrinc
        address' nbytes' fuel
      (rest.1, ⟨csw1.2, tar1.2⟩ :: rest.2)

/-- The replay loop at the end of `mem_ap_read`: walks the captured DRW
words again with the same packed-transfer schedule and extracts the
byte of each host offset from its byte lane (`(address + i) & 3`
normally, `3 - ((address + i) & 3)` under the TI BE-32 quirk; the
case-4 arm falls through as in the write loop).  Assignment to the
`uint8_t` buffer truncates, hence the `% 256`. -/
def mem_ap_read_replay (quirks packed_transfers : Bool) (block : Nat)
    (addrinc : Bool) (size : Nat) (words : List Nat)
    (address nbytes fuel : Nat) : List Nat :=
  match fuel with
  | 0 => []
  | fuel + 1 =>
    if nbytes = 0 then []
    else
      let packed := addrinc ∧ packed_transfers ∧ nbytes ≥ 4 ∧
        max_tar_block_size block address ≥ 4
      let this_size := if packed then 4 else size
      let w := words.headD 0
      let bytes := (List.range this_size).map (fun i =>
        if quirks then (w >>> (8 * (3 - ((address + i) % 4)))) % 256
        else (w >>> (8 * ((address + i) % 4))) % 256)
      bytes ++ mem_ap_read_replay quirks packed_transfers block addrinc size
        words.tail ((address + this_size) % 2 ^ 32) (nbytes - this_size) fuel

/-- Result of the queueing phase of `mem_ap_read` (everything before
the `dap_run`): status, updated AP state, initial TAR write (if any)
and the loop iterations. -/
structure ReadQueueRes where
  res : Res
  ap : Ap
  tar0 : Option Nat
  iters : List RIter
deriving DecidableEq, Repr

/-- The queueing phase of `mem_ap_read`: size dispatch,
unaligned-access check, scratch allocation (modelled as succeeding),
initial TAR setup and the DRW queue loop. -/
def mem_ap_read_queue (ap : Ap) (size count address : Nat)
    (addrinc : Bool) : ReadQueueRes :=
  let nbytes := size * count % 2 ^ 32
  let csw_addrincr := if addrinc then CSW_ADDRINC_SINGLE else CSW_ADDRINC_OFF
  if size = 4 ∨ size = 2 ∨ size = 1 then
    let csw_size := csw_size_of size
    if ap.unaligned_access_bad ∧ address % size ≠ 0 then
      ⟨.unalignedAccess, ap, none, []⟩
    else
      let tar0 := mem_ap_setup_tar ap address
      let lp := mem_ap_read_loop tar0.1 size csw_size csw_addrincr addrinc
        address nbytes nbytes
      ⟨.ok, lp.1, tar0.2, lp.2⟩
  else ⟨.unalignedAccess, ap, none, []⟩

/-- Full result of `mem_ap_read`: the queue phase outcome plus the
caller's buffer as filled by the replay loop. -/
structure ReadRes where
  res : Res
  ap : Ap
  tar0 : Option Nat
  iters : List RIter
  buffer : List Nat
deriving DecidableEq, Repr

/-- `mem_ap_read`: queue phase, flush (outcome `runOk`; the flushed DRW
results are the input `words`), then the replay loop.  The
partial-progress recovery of the source (reading TAR after a failed
flush to salvage a prefix) only affects how much of the buffer is
filled on failure; it is modelled as the zero-progress branch. -/
def mem_ap_read (quirks : Bool) (ap : Ap) (size count address : Nat)
    (addrinc : Bool) (words : List Nat) (runOk : Bool) : ReadRes :=
  let q := mem_ap_read_queue ap size count address addrinc
  if q.res ≠ .ok then ⟨q.res, q.ap, q.tar0, q.iters, []⟩
  else
    let nbytes := size * count % 2 ^ 32
    let buffer :=
      if runOk then
        mem_ap_read_replay quirks ap.packed_transfers ap.tar_autoincr_block
          addrinc size words address nbytes nbytes
      else []
    ⟨if runOk then .ok else .fault, q.ap, q.tar0, q.iters, buffer⟩

/-- `mem_ap_read_buf`: block read with address increment. -/
def mem_ap_read_buf (quirks : Bool) (ap : Ap) (size count address : Nat)
    (words : List Nat) (runOk : Bool) : ReadRes :=
  mem_ap_read quirks ap size count address true words runOk

/-- `mem_ap_read_buf_noincr`: block read without address increment. -/
def mem_ap_read_buf_noincr (quirks : Bool) (ap : Ap)
    (size count address : Nat) (words : List Nat) (runOk : Bool) : ReadRes :=
  mem_ap_read quirks ap size count address false words runOk

/-- A queued AP operation as seen by the target: a CSW write, a TAR
write, a DRW write, or a DRW read. -/
inductive ApOp where
| csw (v : Nat)
| tar (v : Nat)
| drwWrite (v : Nat)
| drwRead
deriving DecidableEq, Repr

/-- Flatten a write-loop iteration into its queued operations, in queue
order. -/
def wIterOps (it : WIter) : List ApOp :=
  (it.cswOp.toList.map ApOp.csw) ++ [ApOp.drwWrite it.drw] ++
    (it.tarOp.toList.map ApOp.tar)

/-- All operations queued by a `mem_ap_write` call, in queue order. -/
def writeOps (r : WriteRes) : List ApOp :=
  (r.tar0.toList.map ApOp.tar) ++ (r.iters.map wIterOps).flatten

/-- Flatten a read-loop iteration into its queued operations, in queue
order. -/
def rIterOps (it : RIter) : List ApOp :=
  (it.cswOp.toList.map ApOp.csw) ++ [ApOp.drwRead] ++
    (it.tarOp.toList.map ApOp.tar)

/-- All operations queued by the queue phase of `mem_ap_read`, in queue
order. -/
def readOps (r : ReadQueueRes) : List ApOp :=
  (r.tar0.toList.map ApOp.tar) ++ (r.iters.map rIterOps).flatten

/-- Target-visible MEM-AP state: a byte-addressed little-endian memory,
the TAR register, and the CSW register. -/
structure TState where
  mem : Nat → Nat
  tar : Nat
  csw : Nat

/-- Access size in bytes encoded in CSW bits 2:0 (spec section 6.4). -/
def cswSizeBytes (csw : Nat) : Nat :=
  if csw % 8 = 2 then 4 else if csw % 8 = 1 then 2 else 1

/-- Address-increment mode encoded in CSW bits 5:4 (0 off, 1 single,
2 packed). -/
def cswInc (csw : Nat) : Nat := csw / 16 % 4

/-- Number of bytes one DRW access moves: the CSW size, or a full word
in packed mode. -/
def drwBytes (csw : Nat) : Nat :=
  if cswInc csw = 2 then 4 else cswSizeBytes csw

/-- Effect of a DRW write on the little-endian target: byte
`tar + j` receives the DRW byte lane `(tar + j) & 3`, and TAR
auto-increments when the CSW increment mode is not off. -/
def drwWriteStep (t : TState) (v : Nat) : TState :=
  let s := drwBytes t.csw
  let mem' := (List.range s).foldl (fun m j =>
    Function.update m ((t.tar + j) % 2 ^ 32)
      ((v >>> (8 * (((t.tar + j) % 2 ^ 32) % 4))) % 256)) t.mem
  { t with mem := mem',
           tar := if cswInc t.csw = 0 then t.tar else (t.tar + s) % 2 ^ 32 }

/-- Word returned by a DRW read on the little-endian target: byte lane
`(tar + j) & 3` carries memory byte `tar + j`; TAR auto-increments as
for writes. -/
def drwReadStep (t : TState) : Nat × TState :=
  let s := drwBytes t.csw
  let w := drw_outvalue false s (t.tar % 2 ^ 32) 0
    ((List.range s).map (fun j => t.mem ((t.tar + j) % 2 ^ 32) % 256))
  (w, { t with tar := if cswInc t.csw = 0 then t.tar else (t.tar + s) % 2 ^ 32 })

/-- Run a list of queued operations against the target state, in order,
collecting the words produced by DRW reads. -/
def simOps : List ApOp → TState → TState × List Nat
| [], t => (t, [])
| .csw v :: ops, t => simOps ops { t with csw := v }
| .tar v :: ops, t => simOps ops { t with tar := v % 2 ^ 32 }
| .drwWrite v :: ops, t => simOps ops (drwWriteStep t v)
| .drwRead :: ops, t =>
  let p := drwReadStep t
  let r := simOps ops p.2
  (r.1, p.1 :: r.2)

/-- Write `buf` through `mem_ap_write_buf`, run the queued operations
against target state `t0`, then read the same range back through
`mem_ap_read_buf` with the DRW words the target produced. -/
def round_trip (ap0 : Ap) (t0 : TState) (buf : List Nat)
    (size count address : Nat) : ReadRes :=
  let w := mem_ap_write_buf false ap0 buf size count address true
  let t1 := (simOps (writeOps w) t0).1
  let q := mem_ap_read_queue w.ap size count address true
  let words := (simOps (readOps q) t1).2
  mem_ap_read false w.ap size count address true words true

example :
    let ap : Ap := ⟨0, 0, 0, 1 <<< 10, false, false⟩
    let t0 : TState := ⟨fun _ => 0, 0, 0⟩
    (round_trip ap t0 [0xDE, 0xAD, 0xBE, 0xEF, 0x01, 0x02] 2 3 0x1002).buffer
      = [0xDE, 0xAD, 0xBE, 0xEF, 0x01, 0x02] := by decide

/-- Result of `dap_lookup_cs_component`: status, the value left in
`*addr`, the value left in `*idx`, and the offsets (within their
ROM table) at which ROM entries were read, in order, across nesting
levels. -/
structure LookupOut where
  res : Res
  addr : Nat
  idx : Int
  entryOffs : List Nat
deriving DecidableEq, Repr

/-- The `do … while (romentry > 0)` loop of `dap_lookup_cs_component`,
together with the final `if (!*addr)` check applied to nested calls.
`read` is the oracle behind `mem_ap_read_atomic_u32`.  `fuel` is a
model artifact bounding the total number of loop iterations across
nesting levels (the C loop itself has no bound); exhaustion yields
`Res.outOfFuel`.  `*addr` holds 0 from function entry until a match,
so it is not threaded: the loop result carries the value it holds at
exit. -/
def lookup_loop (read : Nat → Except Res Nat) (type : Nat) :
    Nat → Nat → Nat → Int → LookupOut
| 0, _, _, idx => ⟨.outOfFuel, 0, idx, []⟩
| fuel + 1, dbgbase, off, idx =>
  match read ((dbgbase &&& 0xFFFFF000) ||| off) with
  | .error e => ⟨e, 0, idx, [off]⟩
  | .ok romentry =>
    let component_base :=
      ((dbgbase &&& 0xFFFFF000) + (romentry &&& 0xFFFFF000)) % 2 ^ 32
    let next := fun (idx' : Int) (offs : List Nat) =>
      if romentry > 0 then
        let r := lookup_loop read type fuel dbgbase ((off + 4) % 2 ^ 32) idx'
        ⟨r.res, r.addr, r.idx, off :: offs ++ r.entryOffs⟩
      else (⟨.ok, 0, idx', off :: offs⟩ : LookupOut)
    if romentry &&& 1 ≠ 0 then
      match read (component_base ||| 0xFF4) with
      | .error e => ⟨e, 0, idx, [off]⟩
      | .ok c_cid1 =>
        let nested :=
          if (c_cid1 >>> 4) &&& 0xF = 1 then
            let rin := lookup_loop read type fuel component_base 0 idx
            let rfin := if rin.res = .ok ∧ rin.addr = 0 then
                { rin with res := .notFound } else rin
            some rfin
          else none
        match nested with
        | some rfin =>
          if rfin.res = .ok then ⟨.ok, rfin.addr, rfin.idx, off :: rfin.entryOffs⟩
          else if rfin.res ≠ .notFound then
            ⟨rfin.res, rfin.addr, rfin.idx, off :: rfin.entryOffs⟩
          else
            match read ((component_base &&& 0xFFFFF000) ||| 0xFCC) with
            | .error e => ⟨e, 0, rfin.idx, off :: rfin.entryOffs⟩
            | .ok devtype =>
              if devtype &&& 0xFF = type then
                if rfin.idx = 0 then
                  ⟨.ok, component_base, rfin.idx, off :: rfin.entryOffs⟩
                else next (rfin.idx - 1) rfin.entryOffs
              else next rfin.idx rfin.entryOffs
        | none =>
          match read ((component_base &&& 0xFFFFF000) ||| 0xFCC) with
          | .error e => ⟨e, 0, idx, [off]⟩
          | .ok devtype =>
            if devtype &&& 0xFF = type then
              if idx = 0 then ⟨.ok, component_base, idx, [off]⟩
              else next (idx - 1) []
            else next idx []
    else next idx []

/-- `dap_lookup_cs_component`: sets `*addr` to 0, scans ROM entries
from offset 0, and turns a completed scan that left `*addr` at 0 into
`ERROR_TARGET_RESOURCE_NOT_AVAILABLE` (`Res.notFound`). -/
def dap_lookup_cs_component (read : Nat → Except Res Nat) (fuel : Nat)
    (dbgbase type : Nat) (idx : Int) : LookupOut :=
  let r := lookup_loop read type fuel dbgbase 0 idx
  if r.res = .ok ∧ r.addr = 0 then { r with res := .notFound } else r

/-- `is_dap_cid_ok` from the source. -/
def is_dap_cid_ok (cid : Nat) : Bool :=
  cid &&& 0xFFFF0FFF = 0xB105000D

/-- `dap_read_part_id`: nine queued word reads (PID then CID registers
of the component's last 4-KB page) followed by a flush, assembling the
32-bit CID and 40-bit PID from the low bytes.  The first failing read
is returned. -/
def dap_read_part_id (read : Nat → Except Res Nat) (component_base : Nat) :
    Except Res (Nat × Nat) := do
  let pid0 ← read (component_base + 0xFE0)
  let pid1 ← read (component_base + 0xFE4)
  let pid2 ← read (component_base + 0xFE8)
  let pid3 ← read (component_base + 0xFEC)
  let pid4 ← read (component_base + 0xFD0)
  let cid0 ← read (component_base + 0xFF0)
  let cid1 ← read (component_base + 0xFF4)
  let cid2 ← read (component_base + 0xFF8)
  let cid3 ← read (component_base + 0xFFC)
  let cid := (cid3 &&& 0xFF) <<< 24 ||| (cid2 &&& 0xFF) <<< 16 |||
    (cid1 &&& 0xFF) <<< 8 ||| (cid0 &&& 0xFF)
  let pid := (pid4 &&& 0xFF) <<< 32 ||| (pid3 &&& 0xFF) <<< 24 |||
    (pid2 &&& 0xFF) <<< 16 ||| (pid1 &&& 0xFF) <<< 8 ||| (pid0 &&& 0xFF)
  pure (cid, pid)

/-- Result of `dap_rom_display`: status and the offsets at which ROM
entries were read (this level and nested levels together). -/
structure RomOut where
  res : Res
  entryOffs : List Nat
deriving DecidableEq, Repr

/-- The bounded entry loop of `dap_rom_display`:
`for (entry_offset = 0; entry_offset < 0xF00; entry_offset += 4)`,
with early exit at a zero entry and recursion (through `nested`) into
components whose present bit is set.  `steps` counts the remaining
loop iterations; the caller passes `steps = 0xF00 / 4`, exactly the
number of offsets below `0xF00`. -/
def rom_display_loop (read : Nat → Except Res Nat) (nested : Nat → RomOut)
    (base_addr : Nat) : Nat → Nat → RomOut
| 0, _ => ⟨.ok, []⟩
| steps + 1, off =>
  match read (base_addr ||| off) with
  | .error e => ⟨e, [off]⟩
  | .ok romentry =>
    if romentry &&& 1 ≠ 0 then
      let r := nested ((base_addr + (romentry &&& 0xFFFFF000)) % 2 ^ 32)
      if r.res ≠ .ok then ⟨r.res, off :: r.entryOffs⟩
      else
        let rest := rom_display_loop read nested base_addr steps (off + 4)
        ⟨rest.res, off :: r.entryOffs ++ rest.entryOffs⟩
    else if romentry ≠ 0 then
      let rest := rom_display_loop read nested base_addr steps (off + 4)
      ⟨rest.res, off :: rest.entryOffs⟩
    else ⟨.ok, [off]⟩

/-- `dap_rom_display`: depth cap at 16, component identification via
`dap_read_part_id` (a failure there is reported but deliberately not
propagated), CID validity check, then — for a ROM table (class 1) — a
MEMTYPE read and the bounded entry loop, or — for a CoreSight
component (class 9) — a DEVTYPE read.  Printing is not modelled.
`fuel` is a model artifact bounding the recursion depth; the depth cap
makes any `fuel ≥ 17` behave identically. -/
def dap_rom_display (read : Nat → Except Res Nat) :
    Nat → Nat → Nat → RomOut
| 0, _, _ => ⟨.outOfFuel, []⟩
| fuel + 1, depth, dbgbase =>
  if depth > 16 then ⟨.fault, []⟩
  else
    let base_addr := dbgbase &&& 0xFFFFF000
    match dap_read_part_id read base_addr with
    | .error _ => ⟨.ok, []⟩
    | .ok cidpid =>
      if ¬ is_dap_cid_ok cidpid.1 then ⟨.ok, []⟩
      else
        let cls := (cidpid.1 >>> 12) &&& 0xF
        if cls = 1 then
          match read (base_addr ||| 0xFCC) with
          | .error e => ⟨e, []⟩
          | .ok _memtype =>
            rom_display_loop read
              (fun b => dap_rom_display read fuel (depth + 1) b)
              base_addr (0xF00 / 4) 0
        else if cls = 9 then
          match read (base_addr ||| 0xFCC) with
          | .error e => ⟨e, []⟩
          | .ok _devtype => ⟨.ok, []⟩
        else ⟨.ok, []⟩

/-- One attempt of the `dap_dp_init` retry loop: the ten transport
steps of lines 620-667 of the source, in order (CTRL/STAT read,
SSTICKYERR write, CTRL/STAT read, power-up-request write, two polls,
CTRL/STAT read, overrun-detect write, CTRL/STAT read, flush).  `step`
gives each step's outcome.  Returns the first failing step's status
(`Res.ok` if the attempt succeeds end to end) and the CTRL/STAT values
written by the steps that were reached. -/
def dp_init_attempt (step : Nat → Res) : Res × List Nat :=
  if step 0 ≠ .ok then (step 0, [])
  else if step 1 ≠ .ok then (step 1, [])
  else if step 2 ≠ .ok then (step 2, [SSTICKYERR])
  else if step 3 ≠ .ok then (step 3, [SSTICKYERR])
  else if step 4 ≠ .ok then
    (step 4, [SSTICKYERR, CDBGPWRUPREQ ||| CSYSPWRUPREQ])
  else if step 5 ≠ .ok then
    (step 5, [SSTICKYERR, CDBGPWRUPREQ ||| CSYSPWRUPREQ])
  else if step 6 ≠ .ok then
    (step 6, [SSTICKYERR, CDBGPWRUPREQ ||| CSYSPWRUPREQ])
  else if step 7 ≠ .ok then
    (step 7, [SSTICKYERR, CDBGPWRUPREQ ||| CSYSPWRUPREQ])
  else if step 8 ≠ .ok then
    (step 8, [SSTICKYERR, CDBGPWRUPREQ ||| CSYSPWRUPREQ,
      CDBGPWRUPREQ ||| CSYSPWRUPREQ ||| CORUNDETECT])
  else if step 9 ≠ .ok then
    (step 9, [SSTICKYERR, CDBGPWRUPREQ ||| CSYSPWRUPREQ,
      CDBGPWRUPREQ ||| CSYSPWRUPREQ ||| CORUNDETECT])
  else (.ok, [SSTICKYERR, CDBGPWRUPREQ ||| CSYSPWRUPREQ,
    CDBGPWRUPREQ ||| CSYSPWRUPREQ ||| CORUNDETECT])

/-- Result of `dap_dp_init`: final status, CTRL/STAT write history
across all attempts made, and the number of attempts made. -/
structure DpInitOut where
  res : Res
  writes : List Nat
  attempts : Nat
deriving DecidableEq, Repr

/-- The `for (i = 0; i < 10; i++)` retry loop of `dap_dp_init`:
`remaining` attempts are left, the current attempt index is `i`.  A
failing step makes the attempt `continue`; the first end-to-end
success breaks out; when the budget is exhausted the status of the
last attempt is returned. -/
def dap_dp_init_loop (oracle : Nat → Nat → Res) :
    Nat → Nat → DpInitOut
| 0, _ => ⟨.ok, [], 0⟩
| remaining + 1, i =>
  let a := dp_init_attempt (oracle i)
  if a.1 = .ok then ⟨.ok, a.2, 1⟩
  else if remaining = 0 then ⟨a.1, a.2, 1⟩
  else
    let r := dap_dp_init_loop oracle remaining (i + 1)
    ⟨r.res, a.2 ++ r.writes, r.attempts + 1⟩

/-- `dap_dp_init`: up to 10 attempts of the initialization sequence. -/
def dap_dp_init (oracle : Nat → Nat → Res) : DpInitOut :=
  dap_dp_init_loop oracle 10 0

/-- Apply an optional queued CSW write to the target state. -/
def applyOptCsw (o : Option Nat) (t : TState) : TState :=
  match o with
  | none => t
  | some v => { t with csw := v }

/-- Apply an optional queued TAR write to the target state. -/
def applyOptTar (o : Option Nat) (t : TState) : TState :=
  match o with
  | none => t
  | some v => { t with tar := v % 2 ^ 32 }

/-- The number of bytes one iteration of the block-engine transfer
loops consumes: 4 when the iteration runs as a packed transfer
(auto-increment requested, AP supports packed transfers, at least a
word of bytes left, and at least a word before the TAR wrap boundary),
otherwise the request size. -/
def loop_this_size (addrinc : Bool) (ap : Ap)
    (address nbytes size : Nat) : Nat :=
  if addrinc ∧ ap.packed_transfers ∧ nbytes ≥ 4 ∧
      max_tar_block_size ap.tar_autoincr_block address ≥ 4 then 4
  else size

theorem lor_shiftRight_dist (x y n : Nat) :
    (x ||| y) >>> n = (x >>> n) ||| (y >>> n) := by
  apply Nat.eq_of_testBit_eq
  intro i
  simp [Nat.testBit_shiftRight, Nat.testBit_or]

theorem lor_mod_two_pow_dist (x y n : Nat) :
    (x ||| y) % 2 ^ n = (x % 2 ^ n) ||| (y % 2 ^ n) := by
  apply Nat.eq_of_testBit_eq
  intro i
  simp only [Nat.testBit_mod_two_pow, Nat.testBit_or]
  cases Nat.decLt i n with
  | isTrue h => simp [h]
  | isFalse h => simp [h]

theorem lor_and_dist (x y z : Nat) :
    (x ||| y) &&& z = (x &&& z) ||| (y &&& z) := by
  apply Nat.eq_of_testBit_eq
  intro i
  simp [Nat.testBit_or, Nat.testBit_and, Bool.and_or_distrib_right]

theorem ext_or (u v k : Nat) :
    ((u ||| v) >>> k) % 256 = ((u >>> k) % 256) ||| ((v >>> k) % 256) := by
  have h := lor_mod_two_pow_dist (u >>> k) (v >>> k) 8
  rw [lor_shiftRight_dist]
  simpa using h

theorem ext_hit (b k : Nat) (hb : b < 256) :
    ((b <<< (8 * k)) >>> (8 * k)) % 256 = b := by
  rw [Nat.shiftLeft_eq, Nat.shiftRight_eq_div_pow,
    Nat.mul_div_cancel _ (Nat.pos_pow_of_pos _ (by norm_num)),
    Nat.mod_eq_of_lt hb]

theorem ext_miss (b l k : Nat) (hb : b < 256) (h : l ≠ k) :
    ((b <<< (8 * l)) >>> (8 * k)) % 256 = 0 := by
  rw [Nat.shiftLeft_eq, Nat.shiftRight_eq_div_pow]
  rcases Nat.lt_or_ge l k with hlk | hkl
  · have hle : 8 * l + 8 ≤ 8 * k := by omega
    have hlt2 : b * 2 ^ (8 * l) < 2 ^ (8 * k) := by
      calc b * 2 ^ (8 * l) < 256 * 2 ^ (8 * l) :=
            (Nat.mul_lt_mul_right (Nat.pos_pow_of_pos _ (by norm_num))).mpr hb
        _ = 2 ^ (8 * l + 8) := by rw [Nat.pow_add]; ring
        _ ≤ 2 ^ (8 * k) := Nat.pow_le_pow_right (by norm_num) hle
    rw [Nat.div_eq_of_lt hlt2]
  · have hlt : k < l := lt_of_le_of_ne hkl (Ne.symm h)
    have hsplit : (2 : Nat) ^ (8 * l) = 2 ^ (8 * k) * 2 ^ (8 * (l - k)) := by
      rw [← Nat.pow_add]
      congr 1
      omega
    have hdiv : b * 2 ^ (8 * l) / 2 ^ (8 * k) = b * 2 ^ (8 * (l - k)) := by
      rw [hsplit, ← Nat.mul_assoc, Nat.mul_comm b, Nat.mul_assoc,
        Nat.mul_div_cancel_left _ (Nat.pos_pow_of_pos _ (by norm_num))]
    rw [hdiv]
    have h8 : (8 : Nat) ≤ 8 * (l - k) := by omega
    have hdvd : (256 : Nat) ∣ b * 2 ^ (8 * (l - k)) := by
      have hp : (2 : Nat) ^ 8 ∣ 2 ^ (8 * (l - k)) := Nat.pow_dvd_pow 2 h8
      exact Dvd.dvd.mul_left (by simpa using hp) b
    omega

theorem ext_zero (k : Nat) : ((0 : Nat) >>> k) % 256 = 0 := by
  simp [Nat.shiftRight_eq_div_pow]

theorem xor_cancel_right_ne {u v x : Nat} (h : u ≠ v) :
    u ^^^ x ≠ v ^^^ x := by
  intro he
  apply h
  have : u ^^^ x ^^^ x = v ^^^ x ^^^ x := by rw [he]
  simpa [Nat.xor_assoc, Nat.xor_self, Nat.xor_zero] using this

theorem xor_cancel_left_ne {u v c : Nat} (h : u ≠ v) :
    c ^^^ u ≠ c ^^^ v := by
  intro he
  apply h
  have : c ^^^ (c ^^^ u) = c ^^^ (c ^^^ v) := by rw [he]
  simpa [← Nat.xor_assoc, Nat.xor_self, Nat.zero_xor] using this

theorem write_lane_ne (quirks : Bool) (s a x i j : Nat) (hi : i < 4)
    (hj : j < 4) (hij : i ≠ j) :
    write_lane quirks s a x i ≠ write_lane quirks s a x j := by
  have hmod : (a + i) % 4 ≠ (a + j) % 4 := by omega
  cases quirks with
  | false => simpa [write_lane] using hmod
  | true =>
    simp only [write_lane, if_true]
    exact xor_cancel_right_ne (xor_cancel_left_ne hmod)

theorem mem_ap_setup_csw_fst (ap : Ap) (c : Nat) :
    (mem_ap_setup_csw ap c).1 =
      { ap with csw_value := c ||| CSW_DBGSWENABLE ||| CSW_MASTER_DEBUG |||
          CSW_HPROT ||| ap.csw_default } := by
  simp only [mem_ap_setup_csw]
  split
  · rfl
  · rename_i h
    cases ap
    simp only [not_not] at h
    simp_all

theorem mem_ap_setup_tar_fst (ap : Ap) (t : Nat) :
    (mem_ap_setup_tar ap t).1 = { ap with tar_value := t } := by
  simp only [mem_ap_setup_tar]
  split
  · rfl
  · rename_i h
    push_neg at h
    cases ap
    simp_all

theorem mem_ap_setup_tar_snd_of_mask (ap : Ap) (t : Nat)
    (h : ap.csw_value &&& CSW_ADDRINC_MASK ≠ 0) :
    (mem_ap_setup_tar ap t).2 = some t := by
  simp only [mem_ap_setup_tar]
  rw [if_pos (Or.inr h)]

theorem effective_mask_bit_packed (cs d : Nat) :
    (cs ||| CSW_ADDRINC_PACKED ||| CSW_DBGSWENABLE ||| CSW_MASTER_DEBUG |||
      CSW_HPROT ||| d) &&& CSW_ADDRINC_MASK ≠ 0 := by
  intro h0
  have h5 := congrArg (fun z => Nat.testBit z 5) h0
  simp only [Nat.testBit_and, Nat.testBit_or] at h5
  rw [show Nat.testBit CSW_ADDRINC_PACKED 5 = true from by decide,
    show Nat.testBit CSW_ADDRINC_MASK 5 = true from by decide] at h5
  simp at h5

theorem effective_mask_bit (cs d : Nat) :
    (cs ||| CSW_ADDRINC_SINGLE ||| CSW_DBGSWENABLE ||| CSW_MASTER_DEBUG |||
      CSW_HPROT ||| d) &&& CSW_ADDRINC_MASK ≠ 0 := by
  intro h0
  have h4 := congrArg (fun z => Nat.testBit z 4) h0
  simp only [Nat.testBit_and, Nat.testBit_or] at h4
  rw [show Nat.testBit CSW_ADDRINC_SINGLE 4 = true from by decide,
    show Nat.testBit CSW_ADDRINC_MASK 4 = true from by decide] at h4
  simp at h4

theorem write_loop_char (quirks addrinc : Bool) (s x cs : Nat) (hs : 0 < s) :
    ∀ (m : Nat) (ap : Ap) (buf : List Nat) (a fuel : Nat),
      ap.packed_transfers = false → a < 2 ^ 32 → s * m ≤ fuel →
      (mem_ap_write_loop quirks ap buf s x cs
        (if addrinc then CSW_ADDRINC_SINGLE else CSW_ADDRINC_OFF) addrinc a
        (s * m) fuel).2.length = m ∧
      ∀ k, k < m →
        ((mem_ap_write_loop quirks ap buf s x cs
            (if addrinc then CSW_ADDRINC_SINGLE else CSW_ADDRINC_OFF) addrinc a
            (s * m) fuel).2.getD k ⟨none, 0, none⟩).drw =
          drw_outvalue quirks s ((a + s * k) % 2 ^ 32) x (buf.drop (s * k)) ∧
        ((mem_ap_write_loop quirks ap buf s x cs
            (if addrinc then CSW_ADDRINC_SINGLE else CSW_ADDRINC_OFF) addrinc a
            (s * m) fuel).2.getD k ⟨none, 0, none⟩).tarOp =
          if addrinc ∧ (x ≠ 0 ∨ ((a + s * (k + 1)) % 2 ^ 32 %
              ap.tar_autoincr_block < s ∧ s * m - s * (k + 1) > 0)) then
            some ((a + s * (k + 1)) % 2 ^ 32 ^^^ x)
          else none := by
  intro m
  induction m with
  | zero =>
    intro ap buf a fuel hp ha hf
    constructor
    · cases fuel <;> simp [mem_ap_write_loop]
    · intro k hk
      omega
  | succ m ih =>
    intro ap buf a fuel hp ha hf
    have hnz : s * (m + 1) ≠ 0 := by positivity
    cases fuel with
    | zero => omega
    | succ f =>
      have hms : s * (m + 1) = s * m + s := Nat.mul_succ s m
      have hf' : s * m ≤ f := by omega
      rw [mem_ap_write_loop]
      rw [if_neg hnz]
      simp only [hp, Bool.false_eq_true, false_and, and_false, if_false]
      simp only [mem_ap_setup_csw_fst]
      have hsm : s * (m + 1) - s = s * m := by omega
      have ha' : (a + s) % 2 ^ 32 < 2 ^ 32 := Nat.mod_lt _ (by norm_num)
      have hadd : ∀ j : Nat, ((a + s) % 2 ^ 32 + s * j) % 2 ^ 32 =
          (a + s * (j + 1)) % 2 ^ 32 := by
        intro j
        rw [Nat.mod_add_mod, Nat.mul_succ]
        ring_nf
      have hdrop : ∀ j : Nat, (buf.drop s).drop (s * j) = buf.drop (s * (j + 1)) := by
        intro j
        rw [List.drop_drop, Nat.mul_succ, Nat.add_comm s (s * j)]
      have hidx : ∀ j : Nat, s * m - s * (j + 1) = s * (m + 1) - s * (j + 1 + 1) := by
        intro j
        rw [Nat.mul_succ s m, Nat.mul_succ s (j + 1)]
        omega
      by_cases hC : addrinc = true ∧ (x ≠ 0 ∨
          ((a + s) % 2 ^ 32 % ap.tar_autoincr_block < s ∧ s * (m + 1) - s > 0))
      · rw [if_pos hC]
        have hinc : (if addrinc = true then CSW_ADDRINC_SINGLE
            else CSW_ADDRINC_OFF) = CSW_ADDRINC_SINGLE := by
          rw [hC.1]
          simp
        have hmask : ((cs ||| if addrinc = true then CSW_ADDRINC_SINGLE
            else CSW_ADDRINC_OFF) ||| CSW_DBGSWENABLE ||| CSW_MASTER_DEBUG |||
            CSW_HPROT ||| ap.csw_default) &&& CSW_ADDRINC_MASK ≠ 0 := by
          rw [hinc]
          exact effective_mask_bit cs ap.csw_default
        rw [mem_ap_setup_tar_snd_of_mask _ _ hmask]
        rw [hsm]
        have hp2 : (mem_ap_setup_tar
            { ap with csw_value := (cs ||| if addrinc = true then
                CSW_ADDRINC_SINGLE else CSW_ADDRINC_OFF) ||| CSW_DBGSWENABLE |||
                CSW_MASTER_DEBUG ||| CSW_HPROT ||| ap.csw_default }
            ((a + s) % 2 ^ 32 ^^^ x)).1.packed_transfers = false := by
          rw [mem_ap_setup_tar_fst]
          exact hp
        obtain ⟨ihlen, ihk⟩ := ih (mem_ap_setup_tar
            { ap with csw_value := (cs ||| if addrinc = true then
                CSW_ADDRINC_SINGLE else CSW_ADDRINC_OFF) ||| CSW_DBGSWENABLE |||
                CSW_MASTER_DEBUG ||| CSW_HPROT ||| ap.csw_default }
            ((a + s) % 2 ^ 32 ^^^ x)).1
          (buf.drop s) ((a + s) % 2 ^ 32) f hp2 ha' hf'
        have hblock : (mem_ap_setup_tar
            { ap with csw_value := (cs ||| if addrinc = true then
                CSW_ADDRINC_SINGLE else CSW_ADDRINC_OFF) ||| CSW_DBGSWENABLE |||
                CSW_MASTER_DEBUG ||| CSW_HPROT ||| ap.csw_default }
            ((a + s) % 2 ^ 32 ^^^ x)).1.tar_autoincr_block =
            ap.tar_autoincr_block := by
          rw [mem_ap_setup_tar_fst]
        rw [hblock] at ihk
        constructor
        · rw [List.length_cons, ihlen]
        · intro k hk
          cases k with
          | zero =>
            simp only [List.getD_cons_zero]
            refine ⟨?_, ?_⟩
            · rw [Nat.mul_zero, Nat.add_zero, Nat.mod_eq_of_lt ha,
                List.drop_zero]
            · rw [Nat.zero_add, Nat.mul_one]
              rw [if_pos ⟨hC.1, hC.2⟩]
          | succ k =>
            have hk' : k < m := by omega
            obtain ⟨ihd, iht⟩ := ihk k hk'
            simp only [List.getD_cons_succ]
            refine ⟨?_, ?_⟩
            · rw [ihd, hadd k, hdrop k]
            · rw [iht, hadd (k + 1), hidx k]
      · rw [if_neg hC]
        rw [hsm]
        have hp2 : ({ ap with csw_value := (cs ||| if addrinc = true then
            CSW_ADDRINC_SINGLE else CSW_ADDRINC_OFF) ||| CSW_DBGSWENABLE |||
            CSW_MASTER_DEBUG ||| CSW_HPROT ||| ap.csw_default } :
            Ap).packed_transfers = false := hp
        obtain ⟨ihlen, ihk⟩ := ih
          { ap with csw_value := (cs ||| if addrinc = true then
              CSW_ADDRINC_SINGLE else CSW_ADDRINC_OFF) ||| CSW_DBGSWENABLE |||
              CSW_MASTER_DEBUG ||| CSW_HPROT ||| ap.csw_default }
          (buf.drop s) ((a + s) % 2 ^ 32) f hp2 ha' hf'
        constructor
        · rw [List.length_cons, ihlen]
        · intro k hk
          cases k with
          | zero =>
            simp only [List.getD_cons_zero]
            refine ⟨?_, ?_⟩
            · rw [Nat.mul_zero, Nat.add_zero, Nat.mod_eq_of_lt ha,
                List.drop_zero]
            · rw [Nat.zero_add, Nat.mul_one]
              rw [if_neg hC]
          | succ k =>
            have hk' : k < m := by omega
            obtain ⟨ihd, iht⟩ := ihk k hk'
            simp only [List.getD_cons_succ]
            refine ⟨?_, ?_⟩
            · rw [ihd, hadd k, hdrop k]
            · rw [iht, hadd (k + 1), hidx k]

theorem read_loop_char (addrinc : Bool) (s cs : Nat) (hs : 0 < s) :
    ∀ (m : Nat) (ap : Ap) (a fuel : Nat),
      ap.packed_transfers = false → a < 2 ^ 32 → s * m ≤ fuel →
      (mem_ap_read_loop ap s cs
        (if addrinc then CSW_ADDRINC_SINGLE else CSW_ADDRINC_OFF) addrinc a
        (s * m) fuel).2.length = m ∧
      ∀ k, k < m →
        ((mem_ap_read_loop ap s cs
            (if addrinc then CSW_ADDRINC_SINGLE else CSW_ADDRINC_OFF) addrinc a
            (s * m) fuel).2.getD k ⟨none, none⟩).tarOp =
          if addrinc ∧ ((a + s * (k + 1)) % 2 ^ 32 % ap.tar_autoincr_block < s ∧
              s * m - s * (k + 1) > 0) then
            some ((a + s * (k + 1)) % 2 ^ 32)
          else none := by
  intro m
  induction m with
  | zero =>
    intro ap a fuel hp ha hf
    constructor
    · cases fuel <;> simp [mem_ap_read_loop]
    · intro k hk
      omega
  | succ m ih =>
    intro ap a fuel hp ha hf
    have hnz : s * (m + 1) ≠ 0 := by positivity
    cases fuel with
    | zero => omega
    | succ f =>
      have hms : s * (m + 1) = s * m + s := Nat.mul_succ s m
      have hf' : s * m ≤ f := by omega
      rw [mem_ap_read_loop]
      rw [if_neg hnz]
      simp only [hp, Bool.false_eq_true, false_and, and_false, if_false]
      simp only [mem_ap_setup_csw_fst]
      have hsm : s * (m + 1) - s = s * m := by omega
      have ha' : (a + s) % 2 ^ 32 < 2 ^ 32 := Nat.mod_lt _ (by norm_num)
      have hadd : ∀ j : Nat, ((a + s) % 2 ^ 32 + s * j) % 2 ^ 32 =
          (a + s * (j + 1)) % 2 ^ 32 := by
        intro j
        rw [Nat.mod_add_mod, Nat.mul_succ]
        ring_nf
      have hidx : ∀ j : Nat, s * m - s * (j + 1) = s * (m + 1) - s * (j + 1 + 1) := by
        intro j
        rw [Nat.mul_succ s m, Nat.mul_succ s (j + 1)]
        omega
      by_cases hC : addrinc = true ∧
          ((a + s) % 2 ^ 32 % ap.tar_autoincr_block < s ∧ s * (m + 1) - s > 0)
      · rw [if_pos hC]
        have hinc : (if addrinc = true then CSW_ADDRINC_SINGLE
            else CSW_ADDRINC_OFF) = CSW_ADDRINC_SINGLE := by
          rw [hC.1]
          simp
        have hmask : ((cs ||| if addrinc = true then CSW_ADDRINC_SINGLE
            else CSW_ADDRINC_OFF) ||| CSW_DBGSWENABLE ||| CSW_MASTER_DEBUG |||
            CSW_HPROT ||| ap.csw_default) &&& CSW_ADDRINC_MASK ≠ 0 := by
          rw [hinc]
          exact effective_mask_bit cs ap.csw_default
        rw [mem_ap_setup_tar_snd_of_mask _ _ hmask]
        rw [hsm]
        have hp2 : (mem_ap_setup_tar
            { ap with csw_value := (cs ||| if addrinc = true then
                CSW_ADDRINC_SINGLE else CSW_ADDRINC_OFF) ||| CSW_DBGSWENABLE |||
                CSW_MASTER_DEBUG ||| CSW_HPROT ||| ap.csw_default }
            ((a + s) % 2 ^ 32)).1.packed_transfers = false := by
          rw [mem_ap_setup_tar_fst]
          exact hp
        obtain ⟨ihlen, ihk⟩ := ih (mem_ap_setup_tar
            { ap with csw_value := (cs ||| if addrinc = true then
                CSW_ADDRINC_SINGLE else CSW_ADDRINC_OFF) ||| CSW_DBGSWENABLE |||
                CSW_MASTER_DEBUG ||| CSW_HPROT ||| ap.csw_default }
            ((a + s) % 2 ^ 32)).1
          ((a + s) % 2 ^ 32) f hp2 ha' hf'
        have hblock : (mem_ap_setup_tar
            { ap with csw_value := (cs ||| if addrinc = true then
                CSW_ADDRINC_SINGLE else CSW_ADDRINC_OFF) ||| CSW_DBGSWENABLE |||
                CSW_MASTER_DEBUG ||| CSW_HPROT ||| ap.csw_default }
            ((a + s) % 2 ^ 32)).1.tar_autoincr_block = ap.tar_autoincr_block := by
          rw [mem_ap_setup_tar_fst]
        rw [hblock] at ihk
        constructor
        · rw [List.length_cons, ihlen]
        · intro k hk
          cases k with
          | zero =>
            simp only [List.getD_cons_zero]
            rw [Nat.zero_add, Nat.mul_one]
            rw [if_pos ⟨hC.1, hC.2⟩]
          | succ k =>
            have hk' : k < m := by omega
            have iht := ihk k hk'
            simp only [List.getD_cons_succ]
            rw [iht, hadd (k + 1), hidx k]
      · rw [if_neg hC]
        rw [hsm]
        have hp2 : ({ ap with csw_value := (cs ||| if addrinc = true then
            CSW_ADDRINC_SINGLE else CSW_ADDRINC_OFF) ||| CSW_DBGSWENABLE |||
            CSW_MASTER_DEBUG ||| CSW_HPROT ||| ap.csw_default } :
            Ap).packed_transfers = false := hp
        obtain ⟨ihlen, ihk⟩ := ih
          { ap with csw_value := (cs ||| if addrinc = true then
              CSW_ADDRINC_SINGLE else CSW_ADDRINC_OFF) ||| CSW_DBGSWENABLE |||
              CSW_MASTER_DEBUG ||| CSW_HPROT ||| ap.csw_default }
          ((a + s) % 2 ^ 32) f hp2 ha' hf'
        constructor
        · rw [List.length_cons, ihlen]
        · intro k hk
          cases k with
          | zero =>
            simp only [List.getD_cons_zero]
            rw [Nat.zero_add, Nat.mul_one]
            rw [if_neg hC]
          | succ k =>
            have hk' : k < m := by omega
            have iht := ihk k hk'
            simp only [List.getD_cons_succ]
            rw [iht, hadd (k + 1), hidx k]

/-- Claim C5 (amended): in the block-engine transfer loops of
`mem_ap_write` and `mem_ap_read`, after the DRW operation queued by any
iteration — packed or not, `this_size` being 4 for a packed iteration
and the request size otherwise — a TAR rewrite is queued exactly when
address auto-increment is requested AND (`addr_xor` is non-zero OR the
post-increment address crosses into a new `tar_autoincr_block` with
bytes still remaining, i.e. `address' % block < size ∧ nbytes' > 0`);
the read loop has no `addr_xor` term.  Every iteration of a transfer is
the head iteration of a recursive invocation of the loop, so this
statement, universally quantified over the loop state, covers each DRW
operation of every transfer. -/
theorem c5_tar_rewrite_policy (quirks addrinc : Bool) (ap : Ap)
    (buf : List Nat) (size x cs address nbytes fuel : Nat)
    (hnz : nbytes ≠ 0) (hf : 0 < fuel) :
    (((mem_ap_write_loop quirks ap buf size x cs
        (if addrinc then CSW_ADDRINC_SINGLE else CSW_ADDRINC_OFF) addrinc
        address nbytes fuel).2.headD ⟨none, 0, none⟩).tarOp =
      if addrinc ∧ (x ≠ 0 ∨
          ((address + loop_this_size addrinc ap address nbytes size) %
              2 ^ 32 % ap.tar_autoincr_block < size ∧
            nbytes - loop_this_size addrinc ap address nbytes size > 0)) then
        some ((address + loop_this_size addrinc ap address nbytes size) %
          2 ^ 32 ^^^ x)
      else none) ∧
    (((mem_ap_read_loop ap size cs
        (if addrinc then CSW_ADDRINC_SINGLE else CSW_ADDRINC_OFF) addrinc
        address nbytes fuel).2.headD ⟨none, none⟩).tarOp =
      if addrinc ∧
          ((address + loop_this_size addrinc ap address nbytes size) %
              2 ^ 32 % ap.tar_autoincr_block < size ∧
            nbytes - loop_this_size addrinc ap address nbytes size > 0) then
        some ((address + loop_this_size addrinc ap address nbytes size) %
          2 ^ 32)
      else none) := by
  cases fuel with
  | zero => omega
  | succ f =>
    constructor
    · rw [mem_ap_write_loop]
      rw [if_neg hnz]
      simp only [mem_ap_setup_csw_fst, loop_this_size]
      simp only [List.headD_cons]
      by_cases hP : (addrinc = true ∧ ap.packed_transfers = true ∧
          nbytes ≥ 4 ∧ max_tar_block_size ap.tar_autoincr_block address ≥ 4)
      · rw [if_pos hP, if_pos hP]
        by_cases hC : (addrinc = true ∧ (x ≠ 0 ∨
            ((address + 4) % 2 ^ 32 % ap.tar_autoincr_block < size ∧
              nbytes - 4 > 0)))
        · rw [if_pos hC, if_pos hC]
          exact mem_ap_setup_tar_snd_of_mask _ _
            (effective_mask_bit_packed cs ap.csw_default)
        · rw [if_neg hC, if_neg hC]
      · rw [if_neg hP, if_neg hP]
        by_cases hC : (addrinc = true ∧ (x ≠ 0 ∨
            ((address + size) % 2 ^ 32 % ap.tar_autoincr_block < size ∧
              nbytes - size > 0)))
        · rw [if_pos hC, if_pos hC]
          have hinc : (if addrinc = true then CSW_ADDRINC_SINGLE
              else CSW_ADDRINC_OFF) = CSW_ADDRINC_SINGLE := by
            rw [hC.1]
            rfl
          rw [hinc]
          exact mem_ap_setup_tar_snd_of_mask _ _
            (effective_mask_bit cs ap.csw_default)
        · rw [if_neg hC, if_neg hC]
    · rw [mem_ap_read_loop]
      rw [if_neg hnz]
      simp only [mem_ap_setup_csw_fst, loop_this_size]
      simp only [List.headD_cons]
      by_cases hP : (addrinc = true ∧ ap.packed_transfers = true ∧
          nbytes ≥ 4 ∧ max_tar_block_size ap.tar_autoincr_block address ≥ 4)
      · rw [if_pos hP, if_pos hP]
        by_cases hC : (addrinc = true ∧
            ((address + 4) % 2 ^ 32 % ap.tar_autoincr_block < size ∧
              nbytes - 4 > 0))
        · rw [if_pos hC, if_pos hC]
          exact mem_ap_setup_tar_snd_of_mask _ _
            (effective_mask_bit_packed cs ap.csw_default)
        · rw [if_neg hC, if_neg hC]
      · rw [if_neg hP, if_neg hP]
        by_cases hC : (addrinc = true ∧
            ((address + size) % 2 ^ 32 % ap.tar_autoincr_block < size ∧
              nbytes - size > 0))
        · rw [if_pos hC, if_pos hC]
          have hinc : (if addrinc = true then CSW_ADDRINC_SINGLE
              else CSW_ADDRINC_OFF) = CSW_ADDRINC_SINGLE := by
            rw [hC.1]
            rfl
          rw [hinc]
          exact mem_ap_setup_tar_snd_of_mask _ _
            (effective_mask_bit cs ap.csw_default)
        · rw [if_neg hC, if_neg hC]

/-- Witness for C5 at a packed iteration: a packed-capable AP, size-2
request with 8 bytes left starting 4 bytes before a 1 KiB TAR wrap
boundary; the iteration consumes 4 bytes and queues a TAR rewrite to
0x400. -/
theorem c5_tar_rewrite_policy_witness :
    (8 : Nat) ≠ 0 ∧
    ((((mem_ap_write_loop false ⟨0, 0, 0, 1024, true, false⟩
        [1, 2, 3, 4, 5, 6, 7, 8] 2 0 1
        (if true then CSW_ADDRINC_SINGLE else CSW_ADDRINC_OFF) true
        0x3FC 8 8).2.headD ⟨none, 0, none⟩).tarOp =
      if true ∧ ((0 : Nat) ≠ 0 ∨
          ((0x3FC + loop_this_size true ⟨0, 0, 0, 1024, true, false⟩
              0x3FC 8 2) % 2 ^ 32 % 1024 < 2 ∧
            8 - loop_this_size true ⟨0, 0, 0, 1024, true, false⟩
              0x3FC 8 2 > 0)) then
        some ((0x3FC + loop_this_size true ⟨0, 0, 0, 1024, true, false⟩
          0x3FC 8 2) % 2 ^ 32 ^^^ 0)
      else none) ∧
    (((mem_ap_read_loop ⟨0, 0, 0, 1024, true, false⟩ 2 1
        (if true then CSW_ADDRINC_SINGLE else CSW_ADDRINC_OFF) true
        0x3FC 8 8).2.headD ⟨none, none⟩).tarOp =
      if true ∧
          ((0x3FC + loop_this_size true ⟨0, 0, 0, 1024, true, false⟩
              0x3FC 8 2) % 2 ^ 32 % 1024 < 2 ∧
            8 - loop_this_size true ⟨0, 0, 0, 1024, true, false⟩
              0x3FC 8 2 > 0) then
        some ((0x3FC + loop_this_size true ⟨0, 0, 0, 1024, true, false⟩
          0x3FC 8 2) % 2 ^ 32)
      else none)) :=
  ⟨by decide,
   c5_tar_rewrite_policy false true ⟨0, 0, 0, 1024, true, false⟩
    [1, 2, 3, 4, 5, 6, 7, 8] 2 0 1 0x3FC 8 8 (by decide) (by decide)⟩

/-- Claim C5 counterexample: with the TI BE-32 quirk, `size = 1`
(`addr_xor = 3 ≠ 0`) and `addrinc = false` (the `noincr` entry point),
the code queues no TAR rewrite after either DRW although the claim's
condition `addr_xor ≠ 0` holds. -/
theorem c5_counterexample_noincr_quirks :
    addr_xor_of true 1 = 3 ∧ (3 : Nat) ≠ 0 ∧
    (mem_ap_write_buf_noincr true ⟨0, 0, 0, 1024, false, true⟩ [1, 2]
        1 2 0 true).iters.map (·.tarOp) = [none, none] := by
  decide

theorem mem_ap_setup_tar_snd_eq_none (ap : Ap) (t : Nat) :
    (mem_ap_setup_tar ap t).2 = none ↔
      (t = ap.tar_value ∧ ap.csw_value &&& CSW_ADDRINC_MASK = 0) := by
  simp only [mem_ap_setup_tar]
  split
  · rename_i h
    constructor
    · intro hc
      exact Option.noConfusion hc
    · intro hc
      rcases h with h | h
      · exact absurd hc.1 h
      · exact absurd hc.2 h
  · rename_i h
    push_neg at h
    simp [h.1, h.2]

/-- Claim C7 (amended): a block transfer with `count = 0` queues no CSW
and no DRW operations and returns the flush outcome; but it still runs
the initial TAR setup, which queues a TAR write unless the shadow
already equals the (XOR-adjusted) start address and the cached CSW has
auto-increment off. -/
theorem c7_count_zero (quirks addrinc runOk : Bool) (ap : Ap)
    (buf words : List Nat) (size address : Nat)
    (hs : size = 4 ∨ size = 2 ∨ size = 1)
    (hal : ¬(ap.unaligned_access_bad ∧ address % size ≠ 0)) :
    ((mem_ap_write quirks ap buf size 0 address addrinc runOk).iters = [] ∧
     (mem_ap_write quirks ap buf size 0 address addrinc runOk).res =
       (if runOk then .ok else .fault) ∧
     ((mem_ap_write quirks ap buf size 0 address addrinc runOk).tar0 = none ↔
       (address ^^^ addr_xor_of quirks size) = ap.tar_value ∧
         ap.csw_value &&& CSW_ADDRINC_MASK = 0)) ∧
    ((mem_ap_read quirks ap size 0 address addrinc words runOk).iters = [] ∧
     (mem_ap_read quirks ap size 0 address addrinc words runOk).buffer = [] ∧
     (mem_ap_read quirks ap size 0 address addrinc words runOk).res =
       (if runOk then .ok else .fault) ∧
     ((mem_ap_read quirks ap size 0 address addrinc words runOk).tar0 = none ↔
       address = ap.tar_value ∧ ap.csw_value &&& CSW_ADDRINC_MASK = 0)) := by
  have hn : size * 0 % 2 ^ 32 = 0 := by simp
  constructor
  · simp only [mem_ap_write]
    rw [if_pos hs, if_neg hal]
    simp only [hn, mem_ap_write_loop]
    refine ⟨by trivial, by trivial, mem_ap_setup_tar_snd_eq_none ap _⟩
  · simp only [mem_ap_read, mem_ap_read_queue]
    rw [if_pos hs, if_neg hal]
    simp only [hn, mem_ap_read_loop, mem_ap_read_replay]
    cases runOk <;>
      simp only [if_true, if_false, reduceIte, ne_eq, not_true_eq_false,
        not_false_eq_true, reduceCtorEq] <;>
      refine ⟨by trivial, by trivial, by trivial, mem_ap_setup_tar_snd_eq_none ap _⟩

theorem c7_count_zero_witness :
    ((4 : Nat) = 4 ∨ (4 : Nat) = 2 ∨ (4 : Nat) = 1) ∧
    (mem_ap_write false ⟨0, 0, 0, 1024, false, false⟩ [] 4 0 0 true
        true).iters = [] ∧
    ((mem_ap_write false ⟨0, 0, 0, 1024, false, false⟩ [] 4 0 0 true
        true).tar0 = none ↔
      ((0 : Nat) ^^^ addr_xor_of false 4) = 0 ∧
        (0 : Nat) &&& CSW_ADDRINC_MASK = 0) := by
  have h := c7_count_zero false true true ⟨0, 0, 0, 1024, false, false⟩ [] []
    4 0 (by decide) (by decide)
  exact ⟨by decide, h.1.1, h.1.2.2⟩

/-- Claim C7 counterexample: with `count = 0` but a TAR shadow that
differs from the target address, `mem_ap_write_buf` still queues a TAR
write (`tar0 = some 0`), so the call is not free of transport
operations. -/
theorem c7_counterexample_tar_still_queued :
    (mem_ap_write_buf false ⟨0, 5, 0, 1024, false, false⟩ [] 4 0 0
        true).res = .ok ∧
    (mem_ap_write_buf false ⟨0, 5, 0, 1024, false, false⟩ [] 4 0 0
        true).tar0 = some 0 ∧
    (mem_ap_write_buf false ⟨0, 5, 0, 1024, false, false⟩ [] 4 0 0
        true).iters = [] := by
  decide

/-- Claim C8: a block request with a size outside {1,2,4}, or an
unaligned address while `unaligned_access_bad` is set, fails
immediately with `UnalignedAccess` and queues nothing, on both the
write and the read path. -/
theorem c8_unaligned_rejected (quirks addrinc runOk : Bool) (ap : Ap)
    (buf words : List Nat) (size count address : Nat)
    (h : (size ≠ 4 ∧ size ≠ 2 ∧ size ≠ 1) ∨
      (ap.unaligned_access_bad ∧ address % size ≠ 0)) :
    ((mem_ap_write quirks ap buf size count address addrinc runOk).res =
       .unalignedAccess ∧
     (mem_ap_write quirks ap buf size count address addrinc runOk).tar0 =
       none ∧
     (mem_ap_write quirks ap buf size count address addrinc runOk).iters =
       []) ∧
    ((mem_ap_read quirks ap size count address addrinc words runOk).res =
       .unalignedAccess ∧
     (mem_ap_read quirks ap size count address addrinc words runOk).tar0 =
       none ∧
     (mem_ap_read quirks ap size count address addrinc words runOk).iters =
       [] ∧
     (mem_ap_read quirks ap size count address addrinc words runOk).buffer =
       []) := by
  by_cases hsz : size = 4 ∨ size = 2 ∨ size = 1
  · have hbad : ap.unaligned_access_bad ∧ address % size ≠ 0 := by
      rcases h with h | h
      · rcases hsz with hx | hx | hx <;> exact absurd hx (by tauto)
      · exact h
    constructor
    · simp only [mem_ap_write]
      rw [if_pos hsz, if_pos hbad]
      exact ⟨rfl, rfl, rfl⟩
    · simp only [mem_ap_read, mem_ap_read_queue]
      rw [if_pos hsz, if_pos hbad]
      simp
  · constructor
    · simp only [mem_ap_write]
      rw [if_neg hsz]
      exact ⟨rfl, rfl, rfl⟩
    · simp only [mem_ap_read, mem_ap_read_queue]
      rw [if_neg hsz]
      simp

theorem c8_unaligned_rejected_witness :
    (((2 : Nat) ≠ 4 ∧ (2 : Nat) ≠ 2 ∧ (2 : Nat) ≠ 1) ∨
      (true = true ∧ (1 : Nat) % 2 ≠ 0)) ∧
    (mem_ap_write false ⟨0, 0, 0, 1024, false, true⟩ [1, 2] 2 1 1 true
        true).res = .unalignedAccess ∧
    (mem_ap_write false ⟨0, 0, 0, 1024, false, true⟩ [1, 2] 2 1 1 true
        true).iters = [] := by
  have h := c8_unaligned_rejected false true true ⟨0, 0, 0, 1024, false, true⟩
    [1, 2] [] 2 1 1 (by decide)
  exact ⟨by decide, h.1.1, h.1.2.2⟩

/-- Claim C2: the code keeps the last-queued (legal) CSW/TAR shadow
values after a failed flush instead of invalidating them, so the next
`mem_ap_setup_csw` with the same CSW elides the register write.  The
theorem evaluates `mem_ap_write` at the failing input: a fresh AP, a
one-word write at address 4 whose flush fails. -/
theorem c2_shadows_not_invalidated_on_flush_failure :
    (mem_ap_write false ⟨0, 0, 0, 1024, false, false⟩ [1, 2, 3, 4] 4 1 4
        true false).res = .fault ∧
    (mem_ap_write false ⟨0, 0, 0, 1024, false, false⟩ [1, 2, 3, 4] 4 1 4
        true false).ap.csw_value =
      (CSW_32BIT ||| CSW_ADDRINC_SINGLE ||| CSW_DBGSWENABLE |||
        CSW_MASTER_DEBUG ||| CSW_HPROT) ∧
    (mem_ap_write false ⟨0, 0, 0, 1024, false, false⟩ [1, 2, 3, 4] 4 1 4
        true false).ap.tar_value = 4 ∧
    (mem_ap_setup_csw
      (mem_ap_write false ⟨0, 0, 0, 1024, false, false⟩ [1, 2, 3, 4] 4 1 4
        true false).ap (CSW_32BIT ||| CSW_ADDRINC_SINGLE)).2 = none := by
  decide

theorem getD_lt_256 (l : List Nat) (h : ∀ b ∈ l, b < 256) (i : Nat) :
    l.getD i 0 < 256 := by
  induction l generalizing i with
  | nil => simp [List.getD]
  | cons a t ih =>
    cases i with
    | zero => simpa using h a (List.mem_cons_self a t)
    | succ i =>
      simp only [List.getD_cons_succ]
      exact ih (fun b hb => h b (List.mem_cons_of_mem a hb)) i

theorem drw_outvalue_extract (quirks : Bool) (s a x : Nat) (buf : List Nat)
    (hs : s = 4 ∨ s = 2 ∨ s = 1) (j : Nat) (hj : j < s)
    (hb : ∀ b ∈ buf, b < 256) :
    (drw_outvalue quirks s a x buf >>> (8 * write_lane quirks s a x j)) %
      256 = buf.getD j 0 := by
  have h0 := getD_lt_256 buf hb 0
  have h1 := getD_lt_256 buf hb 1
  have h2 := getD_lt_256 buf hb 2
  have h3 := getD_lt_256 buf hb 3
  rcases hs with hs | hs | hs <;> subst hs
  · interval_cases j <;>
      simp only [drw_outvalue] <;>
      rw [ext_or, ext_or, ext_or] <;>
      [rw [ext_hit _ _ h0,
        ext_miss _ _ _ h1 (write_lane_ne quirks 4 a x 1 0 (by omega) (by omega)
          (by omega)),
        ext_miss _ _ _ h2 (write_lane_ne quirks 4 a x 2 0 (by omega) (by omega)
          (by omega)),
        ext_miss _ _ _ h3 (write_lane_ne quirks 4 a x 3 0 (by omega) (by omega)
          (by omega))];
       rw [ext_hit _ _ h1,
        ext_miss _ _ _ h0 (write_lane_ne quirks 4 a x 0 1 (by omega) (by omega)
          (by omega)),
        ext_miss _ _ _ h2 (write_lane_ne quirks 4 a x 2 1 (by omega) (by omega)
          (by omega)),
        ext_miss _ _ _ h3 (write_lane_ne quirks 4 a x 3 1 (by omega) (by omega)
          (by omega))];
       rw [ext_hit _ _ h2,
        ext_miss _ _ _ h0 (write_lane_ne quirks 4 a x 0 2 (by omega) (by omega)
          (by omega)),
        ext_miss _ _ _ h1 (write_lane_ne quirks 4 a x 1 2 (by omega) (by omega)
          (by omega)),
        ext_miss _ _ _ h3 (write_lane_ne quirks 4 a x 3 2 (by omega) (by omega)
          (by omega))];
       rw [ext_hit _ _ h3,
        ext_miss _ _ _ h0 (write_lane_ne quirks 4 a x 0 3 (by omega) (by omega)
          (by omega)),
        ext_miss _ _ _ h1 (write_lane_ne quirks 4 a x 1 3 (by omega) (by omega)
          (by omega)),
        ext_miss _ _ _ h2 (write_lane_ne quirks 4 a x 2 3 (by omega) (by omega)
          (by omega))]] <;>
      simp
  · interval_cases j <;>
      simp only [drw_outvalue] <;>
      rw [ext_or] <;>
      [rw [ext_hit _ _ h0,
        ext_miss _ _ _ h1 (write_lane_ne quirks 2 a x 1 0 (by omega) (by omega)
          (by omega))];
       rw [ext_hit _ _ h1,
        ext_miss _ _ _ h0 (write_lane_ne quirks 2 a x 0 1 (by omega) (by omega)
          (by omega))]] <;>
      simp
  · interval_cases j
    simp only [drw_outvalue]
    rw [ext_hit _ _ h0]

theorem getD_drop (l : List Nat) (m j : Nat) :
    (l.drop m).getD j 0 = l.getD (m + j) 0 := by
  induction l generalizing m with
  | nil => simp [List.getD]
  | cons a t ih =>
    cases m with
    | zero => simp
    | succ m =>
      rw [List.drop_succ_cons, ih m, Nat.succ_add, List.getD_cons_succ]

/-- Claim C6 (amended): under the TI BE-32 quirk `mem_ap_write` uses
`addr_xor` 0/2/3 for sizes 4/2/1, XORs it into the initial TAR value,
places the byte at host offset `i` into DRW byte lane
`(size-1) XOR ((address+i) mod 4) XOR addr_xor`, and — when address
auto-increment is requested — re-sets TAR after every DRW transfer for
sizes 1 and 2 (where `addr_xor ≠ 0`); for size 4 `addr_xor = 0` and
TAR is rewritten only at auto-increment block boundaries as in the
normal path. -/
theorem c6_ti_be_32_write_path (runOk : Bool) (ap : Ap) (buf : List Nat)
    (size count address : Nat)
    (hs : size = 4 ∨ size = 2 ∨ size = 1)
    (hp : ap.packed_transfers = false)
    (hal : ¬(ap.unaligned_access_bad ∧ address % size ≠ 0))
    (ha : address < 2 ^ 32) (hcnt : size * count < 2 ^ 32)
    (hb : ∀ b ∈ buf, b < 256)
    (htar : address ^^^ addr_xor_of true size ≠ ap.tar_value) :
    (addr_xor_of true 4 = 0 ∧ addr_xor_of true 2 = 2 ∧
      addr_xor_of true 1 = 3) ∧
    (mem_ap_write true ap buf size count address true runOk).tar0 =
      some (address ^^^ addr_xor_of true size) ∧
    (∀ i, i < size * count →
      (((mem_ap_write true ap buf size count address true runOk).iters.getD
          (i / size) ⟨none, 0, none⟩).drw >>>
        (8 * (((size - 1) ^^^ ((address + i) % 4)) ^^^
          addr_xor_of true size))) % 256 = buf.getD i 0) ∧
    ((size = 1 ∨ size = 2) → ∀ k, k < count →
      ((mem_ap_write true ap buf size count address true runOk).iters.getD k
          ⟨none, 0, none⟩).tarOp =
        some ((address + size * (k + 1)) % 2 ^ 32 ^^^
          addr_xor_of true size)) := by
  have hs0 : 0 < size := by rcases hs with h | h | h <;> omega
  have hn : size * count % 2 ^ 32 = size * count := Nat.mod_eq_of_lt hcnt
  simp only [mem_ap_write]
  rw [if_pos hs, if_neg hal]
  simp only [hn]
  have hpw : (mem_ap_setup_tar ap
      (address ^^^ addr_xor_of true size)).1.packed_transfers = false := by
    rw [mem_ap_setup_tar_fst]
    exact hp
  obtain ⟨hlen, hkk⟩ := write_loop_char true true size
    (addr_xor_of true size) (csw_size_of size) hs0 count
    (mem_ap_setup_tar ap (address ^^^ addr_xor_of true size)).1 buf
    address (size * count) hpw ha (le_refl _)
  have hinc : (if (true : Bool) = true then CSW_ADDRINC_SINGLE
      else CSW_ADDRINC_OFF) = CSW_ADDRINC_SINGLE := rfl
  rw [hinc] at hkk
  simp only [if_true]
  refine ⟨by decide, ?_, ?_, ?_⟩
  · simp only [mem_ap_setup_tar]
    rw [if_pos (Or.inl htar)]
  · intro i hi
    have hk : i / size < count := by
      rw [Nat.div_lt_iff_lt_mul hs0, Nat.mul_comm count size]
      exact hi
    have hdm := Nat.div_add_mod i size
    have hjs : i % size < size := Nat.mod_lt _ hs0
    obtain ⟨hdrw, _⟩ := hkk (i / size) hk
    rw [hdrw]
    have hbd : ∀ b ∈ buf.drop (size * (i / size)), b < 256 :=
      fun b hbm => hb b (List.mem_of_mem_drop hbm)
    have hext := drw_outvalue_extract true size
      ((address + size * (i / size)) % 2 ^ 32) (addr_xor_of true size)
      (buf.drop (size * (i / size))) hs (i % size) hjs hbd
    have hmod4 : ((address + size * (i / size)) % 2 ^ 32 + i % size) % 4 =
        (address + i) % 4 := by omega
    have hlane : write_lane true size
        ((address + size * (i / size)) % 2 ^ 32) (addr_xor_of true size)
        (i % size) =
        ((size - 1) ^^^ ((address + i) % 4)) ^^^ addr_xor_of true size := by
      simp only [write_lane, if_true]
      rw [hmod4]
    rw [hlane] at hext
    rw [hext, getD_drop]
    rw [hdm]
  · intro hsz k hk
    obtain ⟨_, htk⟩ := hkk k hk
    have hxne : addr_xor_of true size ≠ 0 := by
      rcases hsz with h | h <;> subst h <;> decide
    rw [htk]
    rw [if_pos ⟨rfl, Or.inl hxne⟩]

theorem c6_ti_be_32_write_path_witness :
    ((1 : Nat) = 4 ∨ (1 : Nat) = 2 ∨ (1 : Nat) = 1) ∧
    (mem_ap_write true ⟨0, 0, 0, 1024, false, true⟩ [0xAA, 0xBB, 0xCC]
        1 3 0x100 true true).tar0 = some (0x100 ^^^ addr_xor_of true 1) ∧
    ((mem_ap_write true ⟨0, 0, 0, 1024, false, true⟩ [0xAA, 0xBB, 0xCC]
        1 3 0x100 true true).iters.getD 0 ⟨none, 0, none⟩).tarOp =
      some ((0x100 + 1 * (0 + 1)) % 2 ^ 32 ^^^ addr_xor_of true 1) := by
  have h := c6_ti_be_32_write_path true ⟨0, 0, 0, 1024, false, true⟩
    [0xAA, 0xBB, 0xCC] 1 3 0x100 (by decide) rfl (by decide) (by decide)
    (by decide) (by decide) (by decide)
  exact ⟨by decide, h.2.1, h.2.2.2 (Or.inl rfl) 0 (by decide)⟩

/-- Claim C6 counterexample: with the quirk set and `size = 4`
(`addr_xor = 0`), no TAR rewrite is queued after the first DRW of a
two-word block-interior write, refuting "re-sets TAR after every DRW
transfer". -/
theorem c6_counterexample_size4_no_tar_reset :
    (mem_ap_write true ⟨0, 0, 0, 1024, false, true⟩
        [1, 2, 3, 4, 5, 6, 7, 8] 4 2 0x10 true true).iters.map (·.tarOp) =
      [none, none] := by
  decide

theorem lookup_loop_addr_ne (read : Nat → Except Res Nat) (type : Nat) :
    ∀ fuel dbgbase off idx,
      (lookup_loop read type fuel dbgbase off idx).addr ≠ 0 →
      (lookup_loop read type fuel dbgbase off idx).res = .ok := by
  intro fuel
  induction fuel with
  | zero =>
    intro b off idx h
    simp [lookup_loop] at h
  | succ fuel ih =>
    intro b off idx h
    simp only [lookup_loop] at h ⊢
    cases hr : read ((b &&& 0xFFFFF000) ||| off) with
    | error e =>
      simp only [hr] at h ⊢
      exact absurd rfl h
    | ok romentry =>
      simp only [hr] at h ⊢
      by_cases hp : romentry &&& 1 ≠ 0
      · rw [if_pos hp] at h ⊢
        cases hc : read ((((b &&& 0xFFFFF000) +
            (romentry &&& 0xFFFFF000)) % 2 ^ 32) ||| 0xFF4) with
        | error e =>
          simp only [hc] at h ⊢
          exact absurd rfl h
        | ok c_cid1 =>
          simp only [hc] at h ⊢
          by_cases hcl : (c_cid1 >>> 4) &&& 0xF = 1
          · rw [if_pos hcl] at h ⊢
            by_cases hz : (lookup_loop read type fuel
                (((b &&& 0xFFFFF000) + (romentry &&& 0xFFFFF000)) % 2 ^ 32)
                0 idx).res = .ok ∧
                (lookup_loop read type fuel
                  (((b &&& 0xFFFFF000) + (romentry &&& 0xFFFFF000)) % 2 ^ 32)
                  0 idx).addr = 0
            · rw [if_pos hz] at h ⊢
              dsimp only at h ⊢
              rw [if_neg (show ¬(Res.notFound = Res.ok) from by decide)] at h ⊢
              rw [if_neg (show ¬(Res.notFound ≠ Res.notFound) from by
                decide)] at h ⊢
              cases hd : read (((((b &&& 0xFFFFF000) +
                  (romentry &&& 0xFFFFF000)) % 2 ^ 32) &&& 0xFFFFF000) |||
                  0xFCC) with
              | error e =>
                simp only [hd] at h ⊢
                exact absurd rfl h
              | ok devtype =>
                simp only [hd] at h ⊢
                by_cases hm : devtype &&& 0xFF = type
                · rw [if_pos hm] at h ⊢
                  by_cases hi0 : (lookup_loop read type fuel
                      (((b &&& 0xFFFFF000) + (romentry &&& 0xFFFFF000)) %
                        2 ^ 32) 0 idx).idx = 0
                  · rw [if_pos hi0] at h ⊢
                  · rw [if_neg hi0] at h ⊢
                    by_cases hre : romentry > 0
                    · rw [if_pos hre] at h ⊢
                      dsimp only at h ⊢
                      exact ih b ((off + 4) % 2 ^ 32) _ h
                    · rw [if_neg hre] at h ⊢
                · rw [if_neg hm] at h ⊢
                  by_cases hre : romentry > 0
                  · rw [if_pos hre] at h ⊢
                    dsimp only at h ⊢
                    exact ih b ((off + 4) % 2 ^ 32) _ h
                  · rw [if_neg hre] at h ⊢
            · rw [if_neg hz] at h ⊢
              dsimp only at h ⊢
              by_cases h1 : (lookup_loop read type fuel
                  (((b &&& 0xFFFFF000) + (romentry &&& 0xFFFFF000)) % 2 ^ 32)
                  0 idx).res = .ok
              · rw [if_pos h1] at h ⊢
              · rw [if_neg h1] at h ⊢
                by_cases h2 : (lookup_loop read type fuel
                    (((b &&& 0xFFFFF000) + (romentry &&& 0xFFFFF000)) %
                      2 ^ 32) 0 idx).res ≠ .notFound
                · rw [if_pos h2] at h ⊢
                  dsimp only at h ⊢
                  exact absurd (ih _ _ _ h) h1
                · rw [if_neg h2] at h ⊢
                  cases hd : read (((((b &&& 0xFFFFF000) +
                      (romentry &&& 0xFFFFF000)) % 2 ^ 32) &&& 0xFFFFF000) |||
                      0xFCC) with
                  | error e =>
                    simp only [hd] at h ⊢
                    exact absurd rfl h
                  | ok devtype =>
                    simp only [hd] at h ⊢
                    by_cases hm : devtype &&& 0xFF = type
                    · rw [if_pos hm] at h ⊢
                      by_cases hi0 : (lookup_loop read type fuel
                          (((b &&& 0xFFFFF000) +
                            (romentry &&& 0xFFFFF000)) % 2 ^ 32) 0 idx).idx = 0
                      · rw [if_pos hi0] at h ⊢
                      · rw [if_neg hi0] at h ⊢
                        by_cases hre : romentry > 0
                        · rw [if_pos hre] at h ⊢
                          dsimp only at h ⊢
                          exact ih b ((off + 4) % 2 ^ 32) _ h
                        · rw [if_neg hre] at h ⊢
                    · rw [if_neg hm] at h ⊢
                      by_cases hre : romentry > 0
                      · rw [if_pos hre] at h ⊢
                        dsimp only at h ⊢
                        exact ih b ((off + 4) % 2 ^ 32) _ h
                      · rw [if_neg hre] at h ⊢
          · rw [if_neg hcl] at h ⊢
            dsimp only at h ⊢
            cases hd : read (((((b &&& 0xFFFFF000) +
                (romentry &&& 0xFFFFF000)) % 2 ^ 32) &&& 0xFFFFF000) |||
                0xFCC) with
            | error e =>
              simp only [hd] at h ⊢
              exact absurd rfl h
            | ok devtype =>
              simp only [hd] at h ⊢
              by_cases hm : devtype &&& 0xFF = type
              · rw [if_pos hm] at h ⊢
                by_cases hi0 : idx = 0
                · rw [if_pos hi0] at h ⊢
                · rw [if_neg hi0] at h ⊢
                  by_cases hre : romentry > 0
                  · rw [if_pos hre] at h ⊢
                    dsimp only at h ⊢
                    exact ih b ((off + 4) % 2 ^ 32) _ h
                  · rw [if_neg hre] at h ⊢
              · rw [if_neg hm] at h ⊢
                by_cases hre : romentry > 0
                · rw [if_pos hre] at h ⊢
                  dsimp only at h ⊢
                  exact ih b ((off + 4) % 2 ^ 32) _ h
                · rw [if_neg hre] at h ⊢
      · rw [if_neg hp] at h ⊢
        by_cases hre : romentry > 0
        · rw [if_pos hre] at h ⊢
          dsimp only at h ⊢
          exact ih b ((off + 4) % 2 ^ 32) _ h
        · rw [if_neg hre] at h ⊢

/-- Claim C10 (amended): `dap_lookup_cs_component` zeroes `*addr` on
entry and returns Ok exactly when `*addr` is non-zero at exit; every
non-Ok return — a propagated read error as well as NotFound — leaves
`*addr` at 0, and a matching component whose computed base is 0 is
reported as NotFound. -/
theorem c10_lookup_addr_iff (read : Nat → Except Res Nat)
    (fuel dbgbase type : Nat) (idx : Int) :
    (dap_lookup_cs_component read fuel dbgbase type idx).res = .ok ↔
      (dap_lookup_cs_component read fuel dbgbase type idx).addr ≠ 0 := by
  simp only [dap_lookup_cs_component]
  by_cases hz : (lookup_loop read type fuel dbgbase 0 idx).res = .ok ∧
      (lookup_loop read type fuel dbgbase 0 idx).addr = 0
  · rw [if_pos hz]
    simp [hz.2]
  · rw [if_neg hz]
    constructor
    · intro hok haddr
      exact hz ⟨hok, haddr⟩
    · intro haddr
      exact lookup_loop_addr_ne read type fuel dbgbase 0 idx haddr

/-- Claim C10 counterexample: when the very first ROM-entry read fails,
`dap_lookup_cs_component` returns the propagated error (`Fault`), not
`NotFound`, although `*addr` is 0 — refuting the claimed "returns
NotFound if and only if `*addr` is still 0". -/
theorem c10_counterexample_error_with_zero_addr :
    (dap_lookup_cs_component (fun _ => Except.error Res.fault) 5 0 0
        0).res = .fault ∧
    (dap_lookup_cs_component (fun _ => Except.error Res.fault) 5 0 0
        0).res ≠ .notFound ∧
    (dap_lookup_cs_component (fun _ => Except.error Res.fault) 5 0 0
        0).addr = 0 := by
  decide

/-- Claim C3 counterexample: a failing CID1 read of the first (present)
component makes `dap_lookup_cs_component` abort the walk and return the
error — the component is not skipped and the walk does not continue
(only one ROM entry was read). -/
theorem c3_counterexample_lookup_propagates :
    (dap_lookup_cs_component
        (fun a => if a = 0 then Except.ok 1
          else if a = 0xFF4 then Except.error Res.fault
          else Except.ok 0) 5 0 5 0).res = .fault ∧
    (dap_lookup_cs_component
        (fun a => if a = 0 then Except.ok 1
          else if a = 0xFF4 then Except.error Res.fault
          else Except.ok 0) 5 0 5 0).entryOffs = [0] := by
  decide

/-- Claim C3 (amended): only the display walk treats a component
identification-read failure as non-fatal — `dap_rom_display` reports it
and returns Ok so the enclosing recursion continues; in
`dap_lookup_cs_component` such a failure aborts the walk and is
propagated as the function's own return value. -/
theorem c3_display_skips_unreadable_component
    (read : Nat → Except Res Nat) (fuel depth dbgbase : Nat) (e : Res)
    (hd : depth ≤ 16)
    (hpid : dap_read_part_id read (dbgbase &&& 0xFFFFF000) = .error e) :
    (dap_rom_display read (fuel + 1) depth dbgbase).res = .ok ∧
    (dap_rom_display read (fuel + 1) depth dbgbase).entryOffs = [] := by
  simp only [dap_rom_display]
  rw [if_neg (by omega : ¬ depth > 16)]
  rw [hpid]
  exact ⟨rfl, rfl⟩

theorem c3_display_skips_unreadable_component_witness :
    (0 : Nat) ≤ 16 ∧
    dap_read_part_id (fun _ => Except.error Res.fault)
      ((0 : Nat) &&& 0xFFFFF000) = .error Res.fault ∧
    (dap_rom_display (fun _ => Except.error Res.fault) 1 0 0).res = .ok := by
  refine ⟨by decide, rfl, ?_⟩
  exact (c3_display_skips_unreadable_component
    (fun _ => Except.error Res.fault) 0 0 0 Res.fault (by decide) rfl).1

theorem rom_display_loop_offs (read : Nat → Except Res Nat)
    (nested : Nat → RomOut) (base : Nat)
    (hn : ∀ b o, o ∈ (nested b).entryOffs → o < 0xF00) :
    ∀ steps off, off + 4 * steps ≤ 0xF00 →
      ∀ o ∈ (rom_display_loop read nested base steps off).entryOffs,
        o < 0xF00 := by
  intro steps
  induction steps with
  | zero =>
    intro off hb o ho
    simp [rom_display_loop] at ho
  | succ steps ih =>
    intro off hb o ho
    have hoff : off < 0xF00 := by omega
    simp only [rom_display_loop] at ho
    cases hr : read (base ||| off) with
    | error e =>
      rw [hr] at ho
      dsimp only at ho
      simp only [List.mem_singleton] at ho
      omega
    | ok romentry =>
      rw [hr] at ho
      dsimp only at ho
      by_cases hp : romentry &&& 1 ≠ 0
      · rw [if_pos hp] at ho
        by_cases hres : (nested ((base + (romentry &&& 0xFFFFF000)) %
            2 ^ 32)).res ≠ .ok
        · rw [if_pos hres] at ho
          dsimp only at ho
          simp only [List.mem_cons] at ho
          rcases ho with ho | ho
          · omega
          · exact hn _ o ho
        · rw [if_neg hres] at ho
          dsimp only at ho
          simp only [List.mem_cons, List.mem_append] at ho
          rcases ho with (ho | ho) | ho
          · omega
          · exact hn _ o ho
          · exact ih (off + 4) (by omega) o ho
      · rw [if_neg hp] at ho
        by_cases hz : romentry ≠ 0
        · rw [if_pos hz] at ho
          dsimp only at ho
          simp only [List.mem_cons] at ho
          rcases ho with ho | ho
          · omega
          · exact ih (off + 4) (by omega) o ho
        · rw [if_neg hz] at ho
          dsimp only at ho
          simp only [List.mem_singleton] at ho
          omega

/-- Claim C4 (amended): only the display walk bounds the ROM-entry
scan — every ROM entry it reads, at every nesting level, lies at an
offset strictly below 0xF00 (the loop stops at a zero entry or at the
0xF00 cap).  `dap_lookup_cs_component` has no such bound: its loop ends
only at a zero entry, a match, or a read error, and with all entries
non-zero it reads the entry at offset 0xF00 and beyond. -/
theorem c4_display_entry_reads_below_f00 (read : Nat → Except Res Nat) :
    ∀ fuel depth dbgbase o,
      o ∈ (dap_rom_display read fuel depth dbgbase).entryOffs →
      o < 0xF00 := by
  intro fuel
  induction fuel with
  | zero =>
    intro depth b o ho
    simp [dap_rom_display] at ho
  | succ fuel ih =>
    intro depth b o ho
    simp only [dap_rom_display] at ho
    by_cases hdep : depth > 16
    · rw [if_pos hdep] at ho
      simp at ho
    · rw [if_neg hdep] at ho
      cases hpid : dap_read_part_id read (b &&& 0xFFFFF000) with
      | error e =>
        rw [hpid] at ho
        dsimp only at ho
        simp at ho
      | ok cidpid =>
        rw [hpid] at ho
        dsimp only at ho
        by_cases hcid : ¬ is_dap_cid_ok cidpid.1
        · rw [if_pos hcid] at ho
          simp at ho
        · rw [if_neg hcid] at ho
          by_cases hc1 : (cidpid.1 >>> 12) &&& 0xF = 1
          · rw [if_pos hc1] at ho
            cases hmt : read ((b &&& 0xFFFFF000) ||| 0xFCC) with
            | error e =>
              rw [hmt] at ho
              dsimp only at ho
              simp at ho
            | ok memtype =>
              rw [hmt] at ho
              dsimp only at ho
              exact rom_display_loop_offs read _ _
                (fun bb oo hoo => ih (depth + 1) bb oo hoo) (0xF00 / 4) 0
                (by norm_num) o ho
          · rw [if_neg hc1] at ho
            by_cases hc9 : (cidpid.1 >>> 12) &&& 0xF = 9
            · rw [if_pos hc9] at ho
              cases hdt : read ((b &&& 0xFFFFF000) ||| 0xFCC) with
              | error e =>
                rw [hdt] at ho
                dsimp only at ho
                simp at ho
              | ok devtype =>
                rw [hdt] at ho
                dsimp only at ho
                simp at ho
            · rw [if_neg hc9] at ho
              simp at ho

theorem c4_display_entry_reads_below_f00_witness :
    (0 : Nat) ∈ (dap_rom_display
      (fun a => if a % 4096 = 0xFF0 then Except.ok 0x0D
        else if a % 4096 = 0xFF4 then Except.ok 0x10
        else if a % 4096 = 0xFF8 then Except.ok 0x05
        else if a % 4096 = 0xFFC then Except.ok 0xB1
        else Except.ok 0) 3 0 0).entryOffs ∧ (0 : Nat) < 0xF00 := by
  refine ⟨by decide, ?_⟩
  exact c4_display_entry_reads_below_f00
    (fun a => if a % 4096 = 0xFF0 then Except.ok 0x0D
      else if a % 4096 = 0xFF4 then Except.ok 0x10
      else if a % 4096 = 0xFF8 then Except.ok 0x05
      else if a % 4096 = 0xFFC then Except.ok 0xB1
      else Except.ok 0) 3 0 0 0 (by decide)

set_option maxRecDepth 100000 in
/-- Claim C4 counterexample: with every ROM entry present (bit 0 set),
non-matching and leading to a class-0 component, the entry-scanning
loop of `dap_lookup_cs_component` reads the ROM entry at offset 0xF00 —
the claimed 0xF00 stop condition does not exist there. -/
theorem c4_counterexample_lookup_reads_f00 :
    0xF00 ∈ (dap_lookup_cs_component
      (fun a => if a % 4096 = 0xFF4 then Except.ok 0
        else if a % 4096 = 0xFCC then Except.ok 0
        else Except.ok 0x1001) 1000 0 5 0).entryOffs := by
  decide

theorem dp_init_attempt_of_ok (step : Nat → Res)
    (h : ∀ j, j < 10 → step j = .ok) :
    dp_init_attempt step = (.ok, [SSTICKYERR,
      CDBGPWRUPREQ ||| CSYSPWRUPREQ,
      CDBGPWRUPREQ ||| CSYSPWRUPREQ ||| CORUNDETECT]) := by
  simp only [dp_init_attempt]
  rw [if_neg (not_not_intro (h 0 (by omega))),
    if_neg (not_not_intro (h 1 (by omega))),
    if_neg (not_not_intro (h 2 (by omega))),
    if_neg (not_not_intro (h 3 (by omega))),
    if_neg (not_not_intro (h 4 (by omega))),
    if_neg (not_not_intro (h 5 (by omega))),
    if_neg (not_not_intro (h 6 (by omega))),
    if_neg (not_not_intro (h 7 (by omega))),
    if_neg (not_not_intro (h 8 (by omega))),
    if_neg (not_not_intro (h 9 (by omega)))]

theorem dp_init_attempt_fst (step : Nat → Res) :
    (dp_init_attempt step).1 = .ok ↔ ∀ j, j < 10 → step j = .ok := by
  by_cases h0 : step 0 = Res.ok
  · by_cases h1 : step 1 = Res.ok
    · by_cases h2 : step 2 = Res.ok
      · by_cases h3 : step 3 = Res.ok
        · by_cases h4 : step 4 = Res.ok
          · by_cases h5 : step 5 = Res.ok
            · by_cases h6 : step 6 = Res.ok
              · by_cases h7 : step 7 = Res.ok
                · by_cases h8 : step 8 = Res.ok
                  · by_cases h9 : step 9 = Res.ok
                    · have hall : ∀ j, j < 10 → step j = .ok := by
                        intro j hj
                        interval_cases j <;> assumption
                      rw [dp_init_attempt_of_ok step hall]
                      exact iff_of_true rfl hall
                    · simp only [dp_init_attempt]
                      rw [if_neg (not_not_intro h0),
                        if_neg (not_not_intro h1),
                        if_neg (not_not_intro h2),
                        if_neg (not_not_intro h3),
                        if_neg (not_not_intro h4),
                        if_neg (not_not_intro h5),
                        if_neg (not_not_intro h6),
                        if_neg (not_not_intro h7),
                        if_neg (not_not_intro h8), if_pos h9]
                      exact iff_of_false h9 (fun hall => h9 (hall 9 (by omega)))
                  · simp only [dp_init_attempt]
                    rw [if_neg (not_not_intro h0),
                      if_neg (not_not_intro h1),
                      if_neg (not_not_intro h2),
                      if_neg (not_not_intro h3),
                      if_neg (not_not_intro h4),
                      if_neg (not_not_intro h5),
                      if_neg (not_not_intro h6),
                      if_neg (not_not_intro h7), if_pos h8]
                    exact iff_of_false h8 (fun hall => h8 (hall 8 (by omega)))
                · simp only [dp_init_attempt]
                  rw [if_neg (not_not_intro h0),
                    if_neg (not_not_intro h1),
                    if_neg (not_not_intro h2),
                    if_neg (not_not_intro h3),
                    if_neg (not_not_intro h4),
                    if_neg (not_not_intro h5),
                    if_neg (not_not_intro h6), if_pos h7]
                  exact iff_of_false h7 (fun hall => h7 (hall 7 (by omega)))
              · simp only [dp_init_attempt]
                rw [if_neg (not_not_intro h0),
                  if_neg (not_not_intro h1),
                  if_neg (not_not_intro h2),
                  if_neg (not_not_intro h3),
                  if_neg (not_not_intro h4),
                  if_neg (not_not_intro h5), if_pos h6]
                exact iff_of_false h6 (fun hall => h6 (hall 6 (by omega)))
            · simp only [dp_init_attempt]
              rw [if_neg (not_not_intro h0),
                if_neg (not_not_intro h1),
                if_neg (not_not_intro h2),
                if_neg (not_not_intro h3),
                if_neg (not_not_intro h4), if_pos h5]
              exact iff_of_false h5 (fun hall => h5 (hall 5 (by omega)))
          · simp only [dp_init_attempt]
            rw [if_neg (not_not_intro h0),
              if_neg (not_not_intro h1),
              if_neg (not_not_intro h2),
              if_neg (not_not_intro h3), if_pos h4]
            exact iff_of_false h4 (fun hall => h4 (hall 4 (by omega)))
        · simp only [dp_init_attempt]
          rw [if_neg (not_not_intro h0),
            if_neg (not_not_intro h1),
            if_neg (not_not_intro h2), if_pos h3]
          exact iff_of_false h3 (fun hall => h3 (hall 3 (by omega)))
      · simp only [dp_init_attempt]
        rw [if_neg (not_not_intro h0),
          if_neg (not_not_intro h1), if_pos h2]
        exact iff_of_false h2 (fun hall => h2 (hall 2 (by omega)))
    · simp only [dp_init_attempt]
      rw [if_neg (not_not_intro h0), if_pos h1]
      exact iff_of_false h1 (fun hall => h1 (hall 1 (by omega)))
  · simp only [dp_init_attempt]
    rw [if_pos h0]
    exact iff_of_false h0 (fun hall => h0 (hall 0 (by omega)))

theorem dap_dp_init_loop_attempts_le (oracle : Nat → Nat → Res) :
    ∀ rem i, (dap_dp_init_loop oracle rem i).attempts ≤ rem := by
  intro rem
  induction rem with
  | zero =>
    intro i
    simp [dap_dp_init_loop]
  | succ rem ih =>
    intro i
    simp only [dap_dp_init_loop]
    split_ifs with h1 h2
    · dsimp only
      omega
    · dsimp only
      omega
    · have := ih (i + 1)
      dsimp only
      omega

theorem dap_dp_init_loop_res_iff (oracle : Nat → Nat → Res) :
    ∀ rem i, 0 < rem →
      ((dap_dp_init_loop oracle rem i).res = .ok ↔
        ∃ k, k < rem ∧ ∀ j, j < 10 → oracle (i + k) j = .ok) := by
  intro rem
  induction rem with
  | zero =>
    intro i h
    omega
  | succ rem ih =>
    intro i _
    simp only [dap_dp_init_loop]
    by_cases ha : (dp_init_attempt (oracle i)).1 = .ok
    · rw [if_pos ha]
      refine iff_of_true rfl ?_
      exact ⟨0, by omega, by simpa using (dp_init_attempt_fst (oracle i)).1 ha⟩
    · rw [if_neg ha]
      by_cases hr : rem = 0
      · rw [if_pos hr]
        refine iff_of_false ha ?_
        rintro ⟨k, hk, hall⟩
        have hk0 : k = 0 := by omega
        subst hk0
        exact ha ((dp_init_attempt_fst (oracle i)).2 (by simpa using hall))
      · rw [if_neg hr]
        simp only []
        rw [ih (i + 1) (by omega)]
        constructor
        · rintro ⟨k, hk, hall⟩
          refine ⟨k + 1, by omega, ?_⟩
          intro j hj
          have : i + 1 + k = i + (k + 1) := by omega
          rw [← this]
          exact hall j hj
        · rintro ⟨k, hk, hall⟩
          cases k with
          | zero =>
            exact absurd ((dp_init_attempt_fst (oracle i)).2
              (by simpa using hall)) ha
          | succ k =>
            refine ⟨k, by omega, ?_⟩
            intro j hj
            have : i + 1 + k = i + (k + 1) := by omega
            rw [this]
            exact hall j hj

theorem dap_dp_init_loop_first (oracle : Nat → Nat → Res) :
    ∀ rem i k, k < rem → (∀ j, j < 10 → oracle (i + k) j = .ok) →
      (∀ m, m < k → ¬ ∀ j, j < 10 → oracle (i + m) j = .ok) →
      (dap_dp_init_loop oracle rem i).res = .ok ∧
      (dap_dp_init_loop oracle rem i).attempts = k + 1 ∧
      (dap_dp_init_loop oracle rem i).writes.getLast? =
        some (CDBGPWRUPREQ ||| CSYSPWRUPREQ ||| CORUNDETECT) := by
  intro rem
  induction rem with
  | zero =>
    intro i k hk
    omega
  | succ rem ih =>
    intro i k hk hok hfirst
    simp only [dap_dp_init_loop]
    cases k with
    | zero =>
      have ha : (dp_init_attempt (oracle i)).1 = .ok :=
        (dp_init_attempt_fst (oracle i)).2 (by simpa using hok)
      rw [if_pos ha]
      refine ⟨rfl, rfl, ?_⟩
      rw [dp_init_attempt_of_ok (oracle i) (by simpa using hok)]
      rfl
    | succ k =>
      have hna : ¬ ∀ j, j < 10 → oracle i j = .ok := by
        have := hfirst 0 (by omega)
        simpa using this
      have ha : (dp_init_attempt (oracle i)).1 ≠ .ok := by
        intro hc
        exact hna ((dp_init_attempt_fst (oracle i)).1 hc)
      rw [if_neg ha]
      have hr : rem ≠ 0 := by omega
      rw [if_neg hr]
      have hok' : ∀ j, j < 10 → oracle (i + 1 + k) j = .ok := by
        intro j hj
        have he : i + 1 + k = i + (k + 1) := by omega
        rw [he]
        exact hok j hj
      have hfirst' : ∀ m, m < k → ¬ ∀ j, j < 10 → oracle (i + 1 + m) j = .ok := by
        intro m hm hc
        refine hfirst (m + 1) (by omega) ?_
        intro j hj
        have he : i + (m + 1) = i + 1 + m := by omega
        rw [he]
        exact hc j hj
      obtain ⟨h1, h2, h3⟩ := ih (i + 1) k (by omega) hok' hfirst'
      refine ⟨h1, by simpa using h2, ?_⟩
      dsimp only
      rw [List.getLast?_append, h3]
      rfl

/-- Claim C9: `dap_dp_init` makes at most 10 attempts of the
initialization sequence, stops at the first attempt that succeeds end
to end — returning Ok with the last CTRL/STAT value written being
`CDBGPWRUPREQ | CSYSPWRUPREQ | CORUNDETECT` — and returns a failure
status exactly when all 10 attempts failed. -/
theorem c9_dp_init_retries (oracle : Nat → Nat → Res) :
    (dap_dp_init oracle).attempts ≤ 10 ∧
    ((dap_dp_init oracle).res = .ok ↔
      ∃ k, k < 10 ∧ ∀ j, j < 10 → oracle k j = .ok) ∧
    (∀ k, k < 10 → (∀ j, j < 10 → oracle k j = .ok) →
      (∀ m, m < k → ¬ ∀ j, j < 10 → oracle m j = .ok) →
      (dap_dp_init oracle).res = .ok ∧
      (dap_dp_init oracle).attempts = k + 1 ∧
      (dap_dp_init oracle).writes.getLast? =
        some (CDBGPWRUPREQ ||| CSYSPWRUPREQ ||| CORUNDETECT)) := by
  refine ⟨dap_dp_init_loop_attempts_le oracle 10 0, ?_, ?_⟩
  · have h := dap_dp_init_loop_res_iff oracle 10 0 (by omega)
    simpa using h
  · intro k hk hok hfirst
    have h := dap_dp_init_loop_first oracle 10 0 k hk (by simpa using hok)
      (by simpa using hfirst)
    simpa using h

theorem c9_dp_init_retries_witness :
    ((dap_dp_init (fun _ _ => Res.ok)).res = .ok ↔
      ∃ k, k < 10 ∧ ∀ j, j < 10 → (fun (_ _ : Nat) => Res.ok) k j = .ok) ∧
    (dap_dp_init (fun _ _ => Res.ok)).res = .ok ∧
    (dap_dp_init (fun _ _ => Res.ok)).attempts = 0 + 1 ∧
    (dap_dp_init (fun _ _ => Res.ok)).writes.getLast? =
      some (CDBGPWRUPREQ ||| CSYSPWRUPREQ ||| CORUNDETECT) := by
  have h := c9_dp_init_retries (fun _ _ => Res.ok)
  have h3 := h.2.2 0 (by omega) (fun j hj => rfl) (fun m hm => by omega)
  exact ⟨h.2.1, h3.1, h3.2.1, h3.2.2⟩

theorem eff_csw_mod8 (cs d : Nat) (hcs : cs < 8) (hd : d % 64 = 0) :
    eff_csw cs d % 8 = cs := by
  unfold eff_csw
  rw [show (8 : Nat) = 2 ^ 3 from rfl]
  rw [lor_mod_two_pow_dist, lor_mod_two_pow_dist, lor_mod_two_pow_dist,
    lor_mod_two_pow_dist, lor_mod_two_pow_dist]
  rw [show CSW_ADDRINC_SINGLE % 2 ^ 3 = 0 from by decide,
    show CSW_DBGSWENABLE % 2 ^ 3 = 0 from by decide,
    show CSW_MASTER_DEBUG % 2 ^ 3 = 0 from by decide,
    show CSW_HPROT % 2 ^ 3 = 0 from by decide,
    show d % 2 ^ 3 = 0 from by omega,
    Nat.mod_eq_of_lt (show cs < 2 ^ 3 from hcs)]
  simp

theorem eff_csw_inc (cs d : Nat) (hcs : cs < 8) (hd : d % 64 = 0) :
    cswInc (eff_csw cs d) = 1 := by
  unfold cswInc eff_csw
  have hm : ∀ x y : Nat, (x ||| y) % 4 = x % 4 ||| y % 4 := fun x y => by
    have h := lor_mod_two_pow_dist x y 2
    simpa using h
  have hsr : ∀ x y : Nat, (x ||| y) / 16 = x / 16 ||| y / 16 := fun x y => by
    have h := lor_shiftRight_dist x y 4
    simpa [Nat.shiftRight_eq_div_pow] using h
  rw [hsr, hsr, hsr, hsr, hsr, hm, hm, hm, hm, hm]
  rw [show cs / 16 = 0 from Nat.div_eq_of_lt (by omega),
    show CSW_ADDRINC_SINGLE / 16 % 4 = 1 from by decide,
    show CSW_DBGSWENABLE / 16 % 4 = 0 from by decide,
    show CSW_MASTER_DEBUG / 16 % 4 = 0 from by decide,
    show CSW_HPROT / 16 % 4 = 0 from by decide,
    show d / 16 % 4 = 0 from by omega]
  simp

theorem eff_csw_size (s d : Nat) (hs : s = 4 ∨ s = 2 ∨ s = 1)
    (hd : d % 64 = 0) :
    cswSizeBytes (eff_csw (csw_size_of s) d) = s := by
  have hcs : csw_size_of s < 8 := by
    rcases hs with h | h | h <;> subst h <;> decide
  unfold cswSizeBytes
  rw [eff_csw_mod8 (csw_size_of s) d hcs hd]
  rcases hs with h | h | h <;> subst h <;> rfl

theorem eff_csw_drwBytes (s d : Nat) (hs : s = 4 ∨ s = 2 ∨ s = 1)
    (hd : d % 64 = 0) :
    drwBytes (eff_csw (csw_size_of s) d) = s := by
  have hcs : csw_size_of s < 8 := by
    rcases hs with h | h | h <;> subst h <;> decide
  unfold drwBytes
  rw [eff_csw_inc (csw_size_of s) d hcs hd]
  rw [if_neg (by omega)]
  exact eff_csw_size s d hs hd

theorem eff_csw_mask_ne (cs d : Nat) :
    eff_csw cs d &&& CSW_ADDRINC_MASK ≠ 0 := by
  unfold eff_csw
  exact effective_mask_bit cs d

theorem foldl_update_notin (f g : Nat → Nat) :
    ∀ (js : List Nat) (m : Nat → Nat) (x : Nat), (∀ j ∈ js, f j ≠ x) →
      (js.foldl (fun mm j => Function.update mm (f j) (g j)) m) x = m x := by
  intro js
  induction js with
  | nil =>
    intro m x _
    rfl
  | cons a l ih =>
    intro m x h
    simp only [List.foldl_cons]
    rw [ih _ x (fun j hj => h j (List.mem_cons_of_mem a hj))]
    rw [Function.update_apply,
      if_neg (fun he => h a (List.mem_cons_self a l) he.symm)]

theorem foldl_update_mem (f g : Nat → Nat) :
    ∀ (js : List Nat) (m : Nat → Nat) (x j : Nat), j ∈ js → f j = x →
      (∀ j', j' ∈ js → f j' = x → j' = j) →
      (js.foldl (fun mm j => Function.update mm (f j) (g j)) m) x = g j := by
  intro js
  induction js with
  | nil =>
    intro m x j hj
    simp at hj
  | cons a l ih =>
    intro m x j hj hfj huniq
    simp only [List.foldl_cons]
    by_cases hex : ∃ j', j' ∈ l ∧ f j' = x
    · obtain ⟨j', hj'l, hfj'⟩ := hex
      have hjj : j' = j := huniq j' (List.mem_cons_of_mem a hj'l) hfj'
      subst hjj
      exact ih _ x j' hj'l hfj'
        (fun j'' hj'' hf'' => huniq j'' (List.mem_cons_of_mem a hj'') hf'')
    · have hja : j = a := by
        rcases List.mem_cons.1 hj with h | h
        · exact h
        · exact absurd ⟨j, h, hfj⟩ hex
      subst hja
      rw [foldl_update_notin f g l _ x (fun j' hj' hf' => hex ⟨j', hj', hf'⟩)]
      rw [Function.update_apply, if_pos hfj.symm]

theorem simOps_append :
    ∀ (l1 l2 : List ApOp) (t : TState),
      simOps (l1 ++ l2) t =
        ((simOps l2 (simOps l1 t).1).1,
          (simOps l1 t).2 ++ (simOps l2 (simOps l1 t).1).2) := by
  intro l1
  induction l1 with
  | nil =>
    intro l2 t
    simp [simOps]
  | cons op l ih =>
    intro l2 t
    cases op with
    | csw v =>
      simp only [List.cons_append, simOps, List.append_eq]
      exact ih l2 _
    | tar v =>
      simp only [List.cons_append, simOps, List.append_eq]
      exact ih l2 _
    | drwWrite v =>
      simp only [List.cons_append, simOps, List.append_eq]
      exact ih l2 _
    | drwRead =>
      simp only [List.cons_append, simOps, List.append_eq]
      rw [ih l2 _]

theorem drwWriteStep_char (s d : Nat) (hs : s = 4 ∨ s = 2 ∨ s = 1)
    (hd : d % 64 = 0) (t : TState) (chunk : List Nat)
    (hb : ∀ b ∈ chunk, b < 256)
    (ht : t.csw = eff_csw (csw_size_of s) d) (hta : t.tar + s ≤ 2 ^ 32) :
    (∀ x, (drwWriteStep t (drw_outvalue false s t.tar 0 chunk)).mem x =
      if t.tar ≤ x ∧ x < t.tar + s then chunk.getD (x - t.tar) 0
      else t.mem x) ∧
    (drwWriteStep t (drw_outvalue false s t.tar 0 chunk)).tar =
      (t.tar + s) % 2 ^ 32 ∧
    (drwWriteStep t (drw_outvalue false s t.tar 0 chunk)).csw = t.csw := by
  have hs0 : 0 < s := by rcases hs with h | h | h <;> omega
  have hby : drwBytes t.csw = s := by
    rw [ht]
    exact eff_csw_drwBytes s d hs hd
  have hcs : csw_size_of s < 8 := by
    rcases hs with h | h | h <;> subst h <;> decide
  have hinc : cswInc t.csw = 1 := by
    rw [ht]
    exact eff_csw_inc (csw_size_of s) d hcs hd
  refine ⟨?_, ?_, rfl⟩
  · intro x
    simp only [drwWriteStep, hby]
    by_cases hx : t.tar ≤ x ∧ x < t.tar + s
    · rw [if_pos hx]
      have hj : x - t.tar < s := by omega
      have hfx : (t.tar + (x - t.tar)) % 2 ^ 32 = x := by
        have he : t.tar + (x - t.tar) = x := by omega
        rw [he]
        exact Nat.mod_eq_of_lt (by omega)
      rw [foldl_update_mem (fun j => (t.tar + j) % 2 ^ 32)
        (fun j => (drw_outvalue false s t.tar 0 chunk >>>
          (8 * ((t.tar + j) % 2 ^ 32 % 4))) % 256)
        (List.range s) t.mem x (x - t.tar) (List.mem_range.2 hj) hfx ?_]
      · rw [hfx]
        have hlane : x % 4 = write_lane false s t.tar 0 (x - t.tar) := by
          simp only [write_lane, Bool.false_eq_true, if_false]
          omega
        rw [hlane]
        exact drw_outvalue_extract false s t.tar 0 chunk hs (x - t.tar) hj hb
      · intro j' hj' hf'
        have hj'r : j' < s := List.mem_range.1 hj'
        have hf2 : (t.tar + j') % 2 ^ 32 = x := hf'
        have hm : (t.tar + j') % 2 ^ 32 = t.tar + j' :=
          Nat.mod_eq_of_lt (by omega)
        omega
    · rw [if_neg hx]
      refine foldl_update_notin (fun j => (t.tar + j) % 2 ^ 32)
        (fun j => (drw_outvalue false s t.tar 0 chunk >>>
          (8 * ((t.tar + j) % 2 ^ 32 % 4))) % 256)
        (List.range s) t.mem x ?_
      intro j hj
      have hjr : j < s := List.mem_range.1 hj
      show (t.tar + j) % 2 ^ 32 ≠ x
      have hm : (t.tar + j) % 2 ^ 32 = t.tar + j := Nat.mod_eq_of_lt (by omega)
      omega
  · simp only [drwWriteStep, hby, hinc]
    rw [if_neg (by omega)]

theorem drwReadStep_char (s d : Nat) (hs : s = 4 ∨ s = 2 ∨ s = 1)
    (hd : d % 64 = 0) (t : TState)
    (ht : t.csw = eff_csw (csw_size_of s) d) (hta : t.tar + s ≤ 2 ^ 32)
    (htlt : t.tar < 2 ^ 32) :
    (drwReadStep t).1 = drw_outvalue false s t.tar 0
      ((List.range s).map (fun j => t.mem (t.tar + j) % 256)) ∧
    (drwReadStep t).2.tar = (t.tar + s) % 2 ^ 32 ∧
    (drwReadStep t).2.csw = t.csw ∧
    (∀ x, (drwReadStep t).2.mem x = t.mem x) := by
  have hs0 : 0 < s := by rcases hs with h | h | h <;> omega
  have hby : drwBytes t.csw = s := by
    rw [ht]
    exact eff_csw_drwBytes s d hs hd
  have hcs : csw_size_of s < 8 := by
    rcases hs with h | h | h <;> subst h <;> decide
  have hinc : cswInc t.csw = 1 := by
    rw [ht]
    exact eff_csw_inc (csw_size_of s) d hcs hd
  refine ⟨?_, ?_, rfl, fun x => rfl⟩
  · simp only [drwReadStep, hby]
    rw [Nat.mod_eq_of_lt htlt]
    congr 1
    apply List.map_congr_left
    intro j hj
    have hjr : j < s := List.mem_range.1 hj
    rw [Nat.mod_eq_of_lt (show t.tar + j < 2 ^ 32 by omega)]
  · simp only [drwReadStep, hby, hinc]
    rw [if_neg (by omega)]

theorem getD_map_range (f : Nat → Nat) :
    ∀ n i, i < n → ((List.range n).map f).getD i 0 = f i := by
  intro n
  induction n with
  | zero =>
    intro i hi
    omega
  | succ n ih =>
    intro i hi
    rw [List.range_succ, List.map_append]
    by_cases hin : i < n
    · rw [List.getD_append _ _ _ _ (by simpa using hin)]
      exact ih i hin
    · have hieq : i = n := by omega
      subst hieq
      rw [List.getD_append_right _ _ _ _ (by simp)]
      simp

theorem map_range_getD_eq (l : List Nat) :
    (List.range l.length).map (fun i => l.getD i 0) = l := by
  apply List.ext_getElem
  · simp
  · intro n h1 h2
    have hn : n < l.length := by simpa using h2
    rw [List.getElem_map]
    simp only [List.getElem_range]
    rw [List.getD_eq_getElem l 0 hn]

theorem simOps_wIter (it : WIter) (rest : List ApOp) (t : TState) :
    simOps (wIterOps it ++ rest) t =
      simOps rest
        (applyOptTar it.tarOp (drwWriteStep (applyOptCsw it.cswOp t) it.drw)) := by
  rcases it with ⟨co, v, tp⟩
  cases co <;> cases tp <;>
    simp [wIterOps, simOps, applyOptCsw, applyOptTar]

theorem applyOptCsw_setup (ap : Ap) (c : Nat) (t : TState)
    (hmir : t.csw = ap.csw_value) :
    applyOptCsw (mem_ap_setup_csw ap c).2 t =
      { t with csw := c ||| CSW_DBGSWENABLE ||| CSW_MASTER_DEBUG |||
        CSW_HPROT ||| ap.csw_default } := by
  simp only [mem_ap_setup_csw]
  split
  · rfl
  · rename_i h
    simp only [not_not] at h
    cases t
    simp only [applyOptCsw]
    simp_all

theorem write_loop_sim (s d : Nat) (hs : s = 4 ∨ s = 2 ∨ s = 1)
    (hd : d % 64 = 0) :
    ∀ (m : Nat) (ap : Ap) (buf : List Nat) (a fuel : Nat) (t : TState),
      ap.packed_transfers = false → ap.csw_default = d →
      s * m ≤ fuel → a + s * m ≤ 2 ^ 32 → a < 2 ^ 32 →
      (∀ b ∈ buf, b < 256) →
      t.csw = ap.csw_value → t.tar = a →
      (∀ x, (simOps (((mem_ap_write_loop false ap buf s 0 (csw_size_of s)
          CSW_ADDRINC_SINGLE true a (s * m) fuel).2.map wIterOps).flatten)
          t).1.mem x =
        if a ≤ x ∧ x < a + s * m then buf.getD (x - a) 0 else t.mem x) ∧
      (simOps (((mem_ap_write_loop false ap buf s 0 (csw_size_of s)
          CSW_ADDRINC_SINGLE true a (s * m) fuel).2.map wIterOps).flatten)
          t).1.csw =
        (mem_ap_write_loop false ap buf s 0 (csw_size_of s)
          CSW_ADDRINC_SINGLE true a (s * m) fuel).1.csw_value ∧
      (mem_ap_write_loop false ap buf s 0 (csw_size_of s)
          CSW_ADDRINC_SINGLE true a (s * m) fuel).1.csw_value =
        (if m = 0 then ap.csw_value else eff_csw (csw_size_of s) d) ∧
      (mem_ap_write_loop false ap buf s 0 (csw_size_of s)
          CSW_ADDRINC_SINGLE true a (s * m) fuel).1.packed_transfers =
        false ∧
      (mem_ap_write_loop false ap buf s 0 (csw_size_of s)
          CSW_ADDRINC_SINGLE true a (s * m) fuel).1.csw_default = d := by
  have hs0 : 0 < s := by rcases hs with h | h | h <;> omega
  intro m
  induction m with
  | zero =>
    intro ap buf a fuel t hp hdef hf hbound halt hb hmir htar
    constructor
    · intro x
      rw [if_neg (by omega)]
      cases fuel <;> simp [mem_ap_write_loop, simOps]
    · cases fuel <;>
        simp [mem_ap_write_loop, simOps, hmir, hp, hdef]
  | succ m ih =>
    intro ap buf a fuel t hp hdef hf hbound halt hb hmir htar
    have hnz : s * (m + 1) ≠ 0 := by positivity
    have hms : s * (m + 1) = s * m + s := Nat.mul_succ s m
    cases fuel with
    | zero => omega
    | succ f =>
      have hf' : s * m ≤ f := by omega
      rw [mem_ap_write_loop]
      rw [if_neg hnz]
      simp only [hp, Bool.false_eq_true, false_and, and_false, if_false]
      simp only [List.map_cons, List.flatten_cons]
      rw [simOps_wIter]
      have hcs8 : csw_size_of s < 8 := by
        rcases hs with h | h | h <;> subst h <;> decide
      rw [applyOptCsw_setup ap _ t hmir]
      simp only [mem_ap_setup_csw_fst]
      rw [hdef]
      have heff : csw_size_of s ||| CSW_ADDRINC_SINGLE ||| CSW_DBGSWENABLE |||
          CSW_MASTER_DEBUG ||| CSW_HPROT ||| d =
          eff_csw (csw_size_of s) d := rfl
      rw [heff]
      have hchar := drwWriteStep_char s d hs hd
        { t with csw := eff_csw (csw_size_of s) d } buf hb (by rfl)
        (by simp only []; omega)
      rw [htar] at hchar
      obtain ⟨hmem2, htar2, hcsw2⟩ := hchar
      rw [htar]
      simp only [true_and, ne_eq, eq_self_iff_true, not_true, false_or,
        Nat.xor_zero]
      have hsm : s * (m + 1) - s = s * m := by omega
      rw [hsm]
      have ha'lt : (a + s) % 2 ^ 32 < 2 ^ 32 := Nat.mod_lt _ (by norm_num)
      have ha'b : (a + s) % 2 ^ 32 + s * m ≤ 2 ^ 32 := by
        rcases Nat.eq_zero_or_pos m with hm | hm
        · rw [hm, Nat.mul_zero]
          omega
        · have hsl : s ≤ s * m := Nat.le_mul_of_pos_right s hm
          rw [Nat.mod_eq_of_lt (by omega)]
          omega
      have hb2 : ∀ b ∈ buf.drop s, b < 256 := fun b hbm =>
        hb b (List.mem_of_mem_drop hbm)
      have hmm : (a + s) % 2 ^ 32 % 2 ^ 32 = (a + s) % 2 ^ 32 := by omega
      have ha'lt : (a + s) % 2 ^ 32 < 2 ^ 32 := Nat.mod_lt _ (by norm_num)
      have ha'b : (a + s) % 2 ^ 32 + s * m ≤ 2 ^ 32 := by
        rcases Nat.eq_zero_or_pos m with hm | hm
        · rw [hm, Nat.mul_zero]
          omega
        · have hsl : s ≤ s * m := Nat.le_mul_of_pos_right s hm
          rw [Nat.mod_eq_of_lt (by omega)]
          omega
      by_cases hC : (a + s) % 2 ^ 32 % ap.tar_autoincr_block < s ∧ s * m > 0
      · rw [if_pos hC]
        have hm1 : 0 < m := by
          rcases Nat.eq_zero_or_pos m with h | h
          · rw [h, Nat.mul_zero] at hC
            exact absurd hC.2 (by omega)
          · exact h
        have hsl : s ≤ s * m := Nat.le_mul_of_pos_right s hm1
        have hw : a + s < 2 ^ 32 := by omega
        have hmask2 : (Ap.mk (eff_csw (csw_size_of s) d) ap.tar_value d
            ap.tar_autoincr_block ap.packed_transfers
            ap.unaligned_access_bad).csw_value &&&
            CSW_ADDRINC_MASK ≠ 0 := effective_mask_bit _ _
        rw [mem_ap_setup_tar_snd_of_mask _ _ hmask2]
        simp only [applyOptTar]
        rw [hmm]
        obtain ⟨sm, sc, scv, sp2, sd2⟩ := ih
          (mem_ap_setup_tar (Ap.mk (eff_csw (csw_size_of s) d) ap.tar_value d
            ap.tar_autoincr_block ap.packed_transfers ap.unaligned_access_bad)
            ((a + s) % 2 ^ 32)).1
          (buf.drop s) ((a + s) % 2 ^ 32) f
          { drwWriteStep (TState.mk t.mem a (eff_csw (csw_size_of s) d))
              (drw_outvalue false s a 0 buf) with tar := (a + s) % 2 ^ 32 }
          (by rw [mem_ap_setup_tar_fst]; exact hp)
          (by rw [mem_ap_setup_tar_fst])
          hf' ha'b ha'lt hb2
          (by rw [mem_ap_setup_tar_fst]; exact hcsw2)
          rfl
        refine ⟨?_, sc, ?_, sp2, sd2⟩
        · intro x
          rw [sm x]
          dsimp only
          rw [Nat.mod_eq_of_lt hw]
          rw [hmem2 x]
          by_cases h1 : a + s ≤ x ∧ x < a + s + s * m
          · rw [if_pos h1, if_pos (by omega)]
            rw [getD_drop]
            congr 1
            omega
          · rw [if_neg h1]
            by_cases h2 : a ≤ x ∧ x < a + s
            · rw [if_pos h2, if_pos (by omega)]
            · rw [if_neg h2, if_neg (by omega)]
        · rw [if_neg (Nat.succ_ne_zero m), scv]
          rw [if_neg (by omega)]
      · rw [if_neg hC]
        dsimp only
        simp only [applyOptTar]
        obtain ⟨sm, sc, scv, sp2, sd2⟩ := ih
          (Ap.mk (eff_csw (csw_size_of s) d) ap.tar_value d
            ap.tar_autoincr_block ap.packed_transfers ap.unaligned_access_bad)
          (buf.drop s) ((a + s) % 2 ^ 32) f
          (drwWriteStep (TState.mk t.mem a (eff_csw (csw_size_of s) d))
            (drw_outvalue false s a 0 buf))
          hp rfl hf' ha'b ha'lt hb2 hcsw2 htar2
        refine ⟨?_, sc, ?_, sp2, sd2⟩
        · intro x
          rw [sm x]
          by_cases hm0 : m = 0
          · subst hm0
            rw [Nat.mul_zero, if_neg (by omega)]
            rw [show s * (0 + 1) = s from by omega]
            exact hmem2 x
          · have hm1 : 0 < m := Nat.pos_of_ne_zero hm0
            have hsl : s ≤ s * m := Nat.le_mul_of_pos_right s hm1
            have hw : a + s < 2 ^ 32 := by omega
            rw [Nat.mod_eq_of_lt hw]
            rw [hmem2 x]
            by_cases h1 : a + s ≤ x ∧ x < a + s + s * m
            · rw [if_pos h1, if_pos (by omega)]
              rw [getD_drop]
              congr 1
              omega
            · rw [if_neg h1]
              by_cases h2 : a ≤ x ∧ x < a + s
              · rw [if_pos h2, if_pos (by omega)]
              · rw [if_neg h2, if_neg (by omega)]
        · rw [if_neg (Nat.succ_ne_zero m), scv]
          by_cases hm0 : m = 0
          · rw [if_pos hm0]
          · rw [if_neg hm0]

theorem simOps_rIter (it : RIter) (rest : List ApOp) (t : TState) :
    simOps (rIterOps it ++ rest) t =
      ((simOps rest (applyOptTar it.tarOp
          (drwReadStep (applyOptCsw it.cswOp t)).2)).1,
        (drwReadStep (applyOptCsw it.cswOp t)).1 ::
          (simOps rest (applyOptTar it.tarOp
            (drwReadStep (applyOptCsw it.cswOp t)).2)).2) := by
  rcases it with ⟨co, tp⟩
  cases co <;> cases tp <;>
    simp [rIterOps, simOps, applyOptCsw, applyOptTar]

theorem read_loop_sim (s d : Nat) (hs : s = 4 ∨ s = 2 ∨ s = 1)
    (hd : d % 64 = 0) :
    ∀ (m : Nat) (ap : Ap) (a fuel : Nat) (t : TState),
      ap.packed_transfers = false → ap.csw_default = d →
      s * m ≤ fuel → a + s * m ≤ 2 ^ 32 → a < 2 ^ 32 →
      t.csw = ap.csw_value → t.tar = a →
      (simOps (((mem_ap_read_loop ap s (csw_size_of s) CSW_ADDRINC_SINGLE
          true a (s * m) fuel).2.map rIterOps).flatten) t).2 =
        (List.range m).map (fun k => drw_outvalue false s (a + s * k) 0
          ((List.range s).map (fun j => t.mem (a + s * k + j) % 256))) ∧
      (∀ x, (simOps (((mem_ap_read_loop ap s (csw_size_of s)
          CSW_ADDRINC_SINGLE true a (s * m) fuel).2.map rIterOps).flatten)
          t).1.mem x = t.mem x) := by
  have hs0 : 0 < s := by rcases hs with h | h | h <;> omega
  intro m
  induction m with
  | zero =>
    intro ap a fuel t hp hdef hf hbound halt hmir htar
    cases fuel <;> simp [mem_ap_read_loop, simOps]
  | succ m ih =>
    intro ap a fuel t hp hdef hf hbound halt hmir htar
    have hnz : s * (m + 1) ≠ 0 := by positivity
    have hms : s * (m + 1) = s * m + s := Nat.mul_succ s m
    cases fuel with
    | zero => omega
    | succ f =>
      have hf' : s * m ≤ f := by omega
      rw [mem_ap_read_loop]
      rw [if_neg hnz]
      simp only [hp, Bool.false_eq_true, false_and, and_false, if_false]
      simp only [mem_ap_setup_csw_fst]
      rw [hdef]
      have heff : csw_size_of s ||| CSW_ADDRINC_SINGLE ||| CSW_DBGSWENABLE |||
          CSW_MASTER_DEBUG ||| CSW_HPROT ||| d =
          eff_csw (csw_size_of s) d := rfl
      rw [heff]
      simp only [List.map_cons, List.flatten_cons]
      rw [simOps_rIter]
      rw [applyOptCsw_setup ap _ t hmir]
      rw [hdef, heff]
      have hcs8 : csw_size_of s < 8 := by
        rcases hs with h | h | h <;> subst h <;> decide
      have hchar := drwReadStep_char s d hs hd
        { t with csw := eff_csw (csw_size_of s) d } (by rfl)
        (by simp only []; omega) (by simp only []; omega)
      rw [htar] at hchar
      obtain ⟨hw2, htar2, hcsw2, hmem2⟩ := hchar
      rw [htar]
      simp only [true_and]
      have hsm : s * (m + 1) - s = s * m := by omega
      rw [hsm]
      have hmm : (a + s) % 2 ^ 32 % 2 ^ 32 = (a + s) % 2 ^ 32 := by omega
      have ha'lt : (a + s) % 2 ^ 32 < 2 ^ 32 := Nat.mod_lt _ (by norm_num)
      have ha'b : (a + s) % 2 ^ 32 + s * m ≤ 2 ^ 32 := by
        rcases Nat.eq_zero_or_pos m with hm | hm
        · rw [hm, Nat.mul_zero]
          omega
        · have hsl : s ≤ s * m := Nat.le_mul_of_pos_right s hm
          rw [Nat.mod_eq_of_lt (by omega)]
          omega
      by_cases hC : (a + s) % 2 ^ 32 % ap.tar_autoincr_block < s ∧ s * m > 0
      · rw [if_pos hC]
        have hm1 : 0 < m := by
          rcases Nat.eq_zero_or_pos m with h | h
          · rw [h, Nat.mul_zero] at hC
            exact absurd hC.2 (by omega)
          · exact h
        have hsl : s ≤ s * m := Nat.le_mul_of_pos_right s hm1
        have hw : a + s < 2 ^ 32 := by omega
        rw [Nat.mod_eq_of_lt hw]
        have hmask2 : (Ap.mk (eff_csw (csw_size_of s) d) ap.tar_value d
            ap.tar_autoincr_block ap.packed_transfers
            ap.unaligned_access_bad).csw_value &&&
            CSW_ADDRINC_MASK ≠ 0 := effective_mask_bit _ _
        rw [mem_ap_setup_tar_snd_of_mask _ _ hmask2]
        simp only [applyOptTar]
        rw [Nat.mod_eq_of_lt hw]
        obtain ⟨sw, smem⟩ := ih
          (mem_ap_setup_tar (Ap.mk (eff_csw (csw_size_of s) d) ap.tar_value d
            ap.tar_autoincr_block ap.packed_transfers ap.unaligned_access_bad)
            (a + s)).1
          (a + s) f
          { (drwReadStep (TState.mk t.mem a (eff_csw (csw_size_of s) d))).2
            with tar := a + s }
          (by rw [mem_ap_setup_tar_fst]; exact hp)
          (by rw [mem_ap_setup_tar_fst])
          hf' (by omega) hw
          (by rw [mem_ap_setup_tar_fst]; exact hcsw2)
          rfl
        constructor
        · rw [sw]
          simp only [hmem2]
          rw [List.range_succ_eq_map, List.map_cons, List.map_map]
          congr 1
          apply List.map_congr_left
          intro k hk
          simp only [Function.comp, Nat.succ_eq_add_one]
          have harg : a + s + s * k = a + s * (k + 1) := by ring
          simp only [harg]
        · intro x
          rw [smem x]
          simp only [hmem2]
      · rw [if_neg hC]
        dsimp only
        simp only [applyOptTar]
        obtain ⟨sw, smem⟩ := ih
          (Ap.mk (eff_csw (csw_size_of s) d) ap.tar_value d
            ap.tar_autoincr_block ap.packed_transfers ap.unaligned_access_bad)
          ((a + s) % 2 ^ 32) f
          (drwReadStep (TState.mk t.mem a (eff_csw (csw_size_of s) d))).2
          hp rfl hf' ha'b ha'lt hcsw2 htar2
        constructor
        · rw [sw]
          simp only [hmem2]
          rw [List.range_succ_eq_map, List.map_cons, List.map_map]
          congr 1
          rcases Nat.eq_zero_or_pos m with hm0 | hm1
          · simp [hm0]
          · have hw : a + s < 2 ^ 32 := by
              have hsl : s ≤ s * m := Nat.le_mul_of_pos_right s hm1
              omega
            rw [Nat.mod_eq_of_lt hw]
            apply List.map_congr_left
            intro k hk
            simp only [Function.comp, Nat.succ_eq_add_one]
            have harg : a + s + s * k = a + s * (k + 1) := by ring
            simp only [harg]
        · intro x
          rw [smem x]
          exact hmem2 x

theorem addr_xor_of_false (s : Nat) : addr_xor_of false s = 0 := by
  unfold addr_xor_of
  split
  · rfl
  · split
    · rfl
    · split <;> rfl

theorem simOps_tarPrefix (o : Option Nat) (rest : List ApOp) (t : TState) :
    simOps (o.toList.map ApOp.tar ++ rest) t =
      simOps rest (applyOptTar o t) := by
  cases o <;> simp [simOps, applyOptTar]

theorem applyOptTar_setup (ap : Ap) (v : Nat) (t : TState)
    (htar : t.tar = ap.tar_value) (hv : v < 2 ^ 32) :
    applyOptTar (mem_ap_setup_tar ap v).2 t = { t with tar := v } := by
  simp only [mem_ap_setup_tar]
  split
  · simp only [applyOptTar, Nat.mod_eq_of_lt hv]
  · rename_i h
    push_neg at h
    cases t
    simp only [applyOptTar]
    simp_all

theorem replay_words (s block : Nat) (hs : s = 4 ∨ s = 2 ∨ s = 1)
    (mm : Nat → Nat) :
    ∀ (m a fuel : Nat), s * m ≤ fuel → a + s * m ≤ 2 ^ 32 → a < 2 ^ 32 →
      mem_ap_read_replay false false block true s
        ((List.range m).map (fun k => drw_outvalue false s (a + s * k) 0
          ((List.range s).map (fun j => mm (a + s * k + j) % 256))))
        a (s * m) fuel =
      (List.range (s * m)).map (fun i => mm (a + i) % 256) := by
  have hs0 : 0 < s := by rcases hs with h | h | h <;> omega
  intro m
  induction m with
  | zero =>
    intro a fuel hf hbound halt
    cases fuel <;> simp [mem_ap_read_replay]
  | succ m ih =>
    intro a fuel hf hbound halt
    have hnz : s * (m + 1) ≠ 0 := by positivity
    have hms : s * (m + 1) = s * m + s := Nat.mul_succ s m
    cases fuel with
    | zero => omega
    | succ f =>
      have hf' : s * m ≤ f := by omega
      rw [mem_ap_read_replay]
      rw [if_neg hnz]
      simp only [Bool.false_eq_true, false_and, and_false, if_false]
      rw [List.range_succ_eq_map, List.map_cons, List.map_map]
      simp only [List.headD_cons, List.tail_cons]
      simp only [Nat.mul_zero, Nat.add_zero]
      have hsm2 : s * (m + 1) - s = s * m := by omega
      rw [hsm2]
      have hbch : ∀ b ∈ (List.range s).map (fun j => mm (a + j) % 256),
          b < 256 := by
        intro b hbm
        simp only [List.mem_map] at hbm
        obtain ⟨j, _, rfl⟩ := hbm
        omega
      have hbytes : (List.range s).map (fun i =>
          (drw_outvalue false s a 0
            ((List.range s).map (fun j => mm (a + j) % 256)) >>>
            (8 * ((a + i) % 4))) % 256) =
          (List.range s).map (fun i => mm (a + i) % 256) := by
        apply List.map_congr_left
        intro i hi
        have hi' := List.mem_range.1 hi
        have hlane : (a + i) % 4 = write_lane false s a 0 i := rfl
        rw [hlane, drw_outvalue_extract false s a 0 _ hs i hi' hbch]
        exact getD_map_range _ s i hi'
      rw [hbytes]
      rcases Nat.eq_zero_or_pos m with hm0 | hm1
      · subst hm0
        simp only [List.range_zero, List.map_nil, Nat.mul_zero]
        have hrec : mem_ap_read_replay false false block true s []
            ((a + s) % 2 ^ 32) 0 f = [] := by
          cases f <;> simp [mem_ap_read_replay]
        rw [hrec, List.append_nil]
        rw [show s * (0 + 1) = s from by ring]
      · have hsl : s ≤ s * m := Nat.le_mul_of_pos_right s hm1
        have hw : a + s < 2 ^ 32 := by omega
        rw [Nat.mod_eq_of_lt hw]
        have htail : (List.range m).map ((fun k =>
            drw_outvalue false s (a + s * k) 0
              ((List.range s).map (fun j => mm (a + s * k + j) % 256))) ∘
            Nat.succ) =
            (List.range m).map (fun k =>
              drw_outvalue false s (a + s + s * k) 0
                ((List.range s).map
                  (fun j => mm (a + s + s * k + j) % 256))) := by
          apply List.map_congr_left
          intro k hk
          simp only [Function.comp, Nat.succ_eq_add_one]
          have harg : a + s * (k + 1) = a + s + s * k := by ring
          simp only [harg]
        rw [htail, ih (a + s) f hf' (by omega) hw]
        rw [show s * (m + 1) = s + s * m from by ring]
        rw [List.range_add, List.map_append, List.map_map]
        congr 1
        apply List.map_congr_left
        intro i hi
        simp only [Function.comp]
        have harg2 : a + (s + i) = a + s + i := by ring
        simp only [harg2]

theorem round_trip_buffer (ap0 : Ap) (t0 : TState) (buf : List Nat)
    (size count address : Nat)
    (hsz : size = 4 ∨ size = 2 ∨ size = 1)
    (hq : ap0.packed_transfers = false)
    (hdef : ap0.csw_default % 64 = 0)
    (hal : address % size = 0)
    (haddr : address < 2 ^ 32)
    (hcnt : size * count < 2 ^ 32)
    (hbound : address + size * count ≤ 2 ^ 32)
    (hb : ∀ b ∈ buf, b < 256)
    (hlen : buf.length = size * count)
    (hmir : t0.csw = ap0.csw_value)
    (htar0 : t0.tar = ap0.tar_value) :
    (round_trip ap0 t0 buf size count address).buffer = buf := by
  have hs0 : 0 < size := by rcases hsz with h | h | h <;> omega
  have hxor : addr_xor_of false size = 0 := addr_xor_of_false size
  have hnb : size * count % 2 ^ 32 = size * count := Nat.mod_eq_of_lt hcnt
  have hun : ∀ b : Bool, ¬(b = true ∧ address % size ≠ 0) :=
    fun b h => h.2 hal
  have hW : mem_ap_write_buf false ap0 buf size count address true =
      ⟨Res.ok,
        (mem_ap_write_loop false (mem_ap_setup_tar ap0 address).1 buf size 0
          (csw_size_of size) CSW_ADDRINC_SINGLE true address (size * count)
          (size * count)).1,
        (mem_ap_setup_tar ap0 address).2,
        (mem_ap_write_loop false (mem_ap_setup_tar ap0 address).1 buf size 0
          (csw_size_of size) CSW_ADDRINC_SINGLE true address (size * count)
          (size * count)).2⟩ := by
    simp only [mem_ap_write_buf, mem_ap_write]
    rw [if_pos hsz, if_neg (hun ap0.unaligned_access_bad), hxor,
      Nat.xor_zero, hnb]
    rfl
  have hQ : ∀ AP : Ap, mem_ap_read_queue AP size count address true =
      ⟨Res.ok,
        (mem_ap_read_loop (mem_ap_setup_tar AP address).1 size
          (csw_size_of size) CSW_ADDRINC_SINGLE true address (size * count)
          (size * count)).1,
        (mem_ap_setup_tar AP address).2,
        (mem_ap_read_loop (mem_ap_setup_tar AP address).1 size
          (csw_size_of size) CSW_ADDRINC_SINGLE true address (size * count)
          (size * count)).2⟩ := by
    intro AP
    simp only [mem_ap_read_queue]
    rw [if_pos hsz, if_neg (hun AP.unaligned_access_bad), hnb]
    rfl
  have hR : ∀ (AP : Ap) (words : List Nat),
      mem_ap_read false AP size count address true words true =
      ⟨Res.ok,
        (mem_ap_read_loop (mem_ap_setup_tar AP address).1 size
          (csw_size_of size) CSW_ADDRINC_SINGLE true address (size * count)
          (size * count)).1,
        (mem_ap_setup_tar AP address).2,
        (mem_ap_read_loop (mem_ap_setup_tar AP address).1 size
          (csw_size_of size) CSW_ADDRINC_SINGLE true address (size * count)
          (size * count)).2,
        mem_ap_read_replay false AP.packed_transfers AP.tar_autoincr_block
          true size words address (size * count) (size * count)⟩ := by
    intro AP words
    simp only [mem_ap_read]
    rw [hQ AP, hnb]
    rfl
  by_cases hc0 : count = 0
  · subst hc0
    have hbuf : buf = [] := List.eq_nil_of_length_eq_zero (by simpa using hlen)
    subst hbuf
    simp only [round_trip]
    rw [hW, hR]
    rfl
  · have hc1 : 0 < count := Nat.pos_of_ne_zero hc0
    simp only [round_trip]
    rw [hW]
    dsimp only
    rw [hQ, hR]
    dsimp only
    simp only [writeOps, readOps]
    simp only [simOps_tarPrefix]
    rw [applyOptTar_setup ap0 address t0 htar0 haddr]
    obtain ⟨wm, wc, wcv, wp, wd⟩ := write_loop_sim size ap0.csw_default hsz
      hdef count (mem_ap_setup_tar ap0 address).1 buf address (size * count)
      (TState.mk t0.mem address t0.csw)
      (by rw [mem_ap_setup_tar_fst]; exact hq)
      (by rw [mem_ap_setup_tar_fst])
      (le_refl _) hbound haddr hb
      (by rw [mem_ap_setup_tar_fst]; exact hmir)
      rfl
    rw [if_neg hc0] at wcv
    have hmask3 : (mem_ap_write_loop false (mem_ap_setup_tar ap0 address).1
        buf size 0 (csw_size_of size) CSW_ADDRINC_SINGLE true address
        (size * count) (size * count)).1.csw_value &&&
        CSW_ADDRINC_MASK ≠ 0 := by
      rw [wcv]
      exact effective_mask_bit _ _
    rw [mem_ap_setup_tar_snd_of_mask _ _ hmask3]
    simp only [applyOptTar]
    rw [Nat.mod_eq_of_lt haddr]
    generalize hLP : mem_ap_write_loop false (mem_ap_setup_tar ap0 address).1
      buf size 0 (csw_size_of size) CSW_ADDRINC_SINGLE true address
      (size * count) (size * count) = LP at wm wc wcv wp wd ⊢
    obtain ⟨rwords, rmem⟩ := read_loop_sim size ap0.csw_default hsz hdef
      count
      (mem_ap_setup_tar LP.1 address).1
      address (size * count)
      { (simOps (List.map wIterOps LP.2).flatten
          (TState.mk t0.mem address t0.csw)).1 with tar := address }
      (by rw [mem_ap_setup_tar_fst]; exact wp)
      (by rw [mem_ap_setup_tar_fst]; exact wd)
      (le_refl _) hbound haddr
      (by rw [mem_ap_setup_tar_fst]; exact wc)
      rfl
    rw [rwords, wp]
    rw [replay_words size LP.1.tar_autoincr_block hsz
      ({ (simOps (List.map wIterOps LP.2).flatten
          (TState.mk t0.mem address t0.csw)).1 with tar := address } :
        TState).mem
      count address (size * count) (le_refl _) hbound haddr]
    dsimp only
    have hfin : ∀ i ∈ List.range (size * count),
        (simOps (List.map wIterOps LP.2).flatten
          (TState.mk t0.mem address t0.csw)).1.mem (address + i) % 256 =
        buf.getD i 0 := by
      intro i hi
      have hi' := List.mem_range.1 hi
      rw [wm (address + i), if_pos (by omega)]
      rw [show address + i - address = i from by omega]
      exact Nat.mod_eq_of_lt (getD_lt_256 buf hb i)
    rw [List.map_congr_left hfin]
    rw [← hlen]
    exact map_range_getD_eq buf

theorem write_buf_lane (ap0 : Ap) (buf : List Nat)
    (size count address : Nat)
    (hsz : size = 4 ∨ size = 2 ∨ size = 1)
    (hq : ap0.packed_transfers = false)
    (hal : address % size = 0)
    (haddr : address < 2 ^ 32)
    (hcnt : size * count < 2 ^ 32)
    (hbound : address + size * count ≤ 2 ^ 32)
    (hb : ∀ b ∈ buf, b < 256) :
    ∀ i, i < size * count →
      (((mem_ap_write_buf false ap0 buf size count address true).iters.getD
          (i / size) ⟨none, 0, none⟩).drw >>>
        (8 * ((address + i) % 4))) % 256 = buf.getD i 0 := by
  have hs0 : 0 < size := by rcases hsz with h | h | h <;> omega
  have hxor : addr_xor_of false size = 0 := addr_xor_of_false size
  have hnb : size * count % 2 ^ 32 = size * count := Nat.mod_eq_of_lt hcnt
  have hun : ∀ b : Bool, ¬(b = true ∧ address % size ≠ 0) :=
    fun b h => h.2 hal
  have hW : mem_ap_write_buf false ap0 buf size count address true =
      ⟨Res.ok,
        (mem_ap_write_loop false (mem_ap_setup_tar ap0 address).1 buf size 0
          (csw_size_of size) CSW_ADDRINC_SINGLE true address (size * count)
          (size * count)).1,
        (mem_ap_setup_tar ap0 address).2,
        (mem_ap_write_loop false (mem_ap_setup_tar ap0 address).1 buf size 0
          (csw_size_of size) CSW_ADDRINC_SINGLE true address (size * count)
          (size * count)).2⟩ := by
    simp only [mem_ap_write_buf, mem_ap_write]
    rw [if_pos hsz, if_neg (hun ap0.unaligned_access_bad), hxor,
      Nat.xor_zero, hnb]
    rfl
  intro i hi
  have hdm : size * (i / size) + i % size = i := Nat.div_add_mod i size
  have hk : i / size < count := by
    rw [Nat.div_lt_iff_lt_mul hs0]
    have hcm : size * count = count * size := Nat.mul_comm _ _
    omega
  have hp2 : (mem_ap_setup_tar ap0 address).1.packed_transfers = false := by
    rw [mem_ap_setup_tar_fst]
    exact hq
  obtain ⟨clen, ck⟩ := write_loop_char false true size 0 (csw_size_of size)
    hs0 count (mem_ap_setup_tar ap0 address).1 buf address (size * count)
    hp2 haddr (le_refl _)
  have hic : (if (true : Bool) = true then CSW_ADDRINC_SINGLE
      else CSW_ADDRINC_OFF) = CSW_ADDRINC_SINGLE := rfl
  rw [hic] at ck
  obtain ⟨hdrw, -⟩ := ck (i / size) hk
  rw [hW]
  dsimp only
  rw [hdrw]
  have hmod : (address + size * (i / size)) % 2 ^ 32 =
      address + size * (i / size) := Nat.mod_eq_of_lt (by omega)
  rw [hmod]
  have hlane : (address + i) % 4 =
      write_lane false size (address + size * (i / size)) 0 (i % size) := by
    show (address + i) % 4 = (address + size * (i / size) + i % size) % 4
    omega
  rw [hlane]
  have hbdrop : ∀ b ∈ buf.drop (size * (i / size)), b < 256 :=
    fun b hbm => hb b (List.mem_of_mem_drop hbm)
  rw [drw_outvalue_extract false size (address + size * (i / size)) 0 _ hsz
    (i % size) (Nat.mod_lt i hs0) hbdrop]
  rw [getD_drop, hdm]

/-- C1: for block transfers with `size ∈ {1,2,4}`, address increment on,
packed transfers unsupported, no TI BE-32 quirk, and an aligned, in-range
request, `mem_ap_write_buf` places the source byte at index `i` in byte
lane `(address + i) % 4` of the DRW word of iteration `i / size`, and
writing then reading back the same range against the little-endian
target model (`round_trip`) returns the original buffer. -/
theorem c1_lane_and_round_trip (ap0 : Ap) (t0 : TState) (buf : List Nat)
    (size count address : Nat)
    (hsz : size = 4 ∨ size = 2 ∨ size = 1)
    (hq : ap0.packed_transfers = false)
    (hdef : ap0.csw_default % 64 = 0)
    (hal : address % size = 0)
    (haddr : address < 2 ^ 32)
    (hcnt : size * count < 2 ^ 32)
    (hbound : address + size * count ≤ 2 ^ 32)
    (hb : ∀ b ∈ buf, b < 256)
    (hlen : buf.length = size * count)
    (hmir : t0.csw = ap0.csw_value)
    (htar0 : t0.tar = ap0.tar_value) :
    (round_trip ap0 t0 buf size count address).buffer = buf ∧
    ∀ i, i < size * count →
      (((mem_ap_write_buf false ap0 buf size count address true).iters.getD
          (i / size) ⟨none, 0, none⟩).drw >>>
        (8 * ((address + i) % 4))) % 256 = buf.getD i 0 :=
  ⟨round_trip_buffer ap0 t0 buf size count address hsz hq hdef hal haddr
    hcnt hbound hb hlen hmir htar0,
   write_buf_lane ap0 buf size count address hsz hq hal haddr hcnt hbound
    hb⟩

/-- Witness for C1 at a concrete halfword transfer: size 2, count 3,
address 0x1002, over a zeroed target. -/
theorem c1_lane_and_round_trip_witness :
    ((2 : Nat) = 4 ∨ (2 : Nat) = 2 ∨ (2 : Nat) = 1) ∧
    ((round_trip ⟨0, 0, 0, 1 <<< 10, false, false⟩ ⟨fun _ => 0, 0, 0⟩
        [0xDE, 0xAD, 0xBE, 0xEF, 0x01, 0x02] 2 3 0x1002).buffer =
      [0xDE, 0xAD, 0xBE, 0xEF, 0x01, 0x02] ∧
    ∀ i, i < 2 * 3 →
      (((mem_ap_write_buf false ⟨0, 0, 0, 1 <<< 10, false, false⟩
          [0xDE, 0xAD, 0xBE, 0xEF, 0x01, 0x02] 2 3 0x1002 true).iters.getD
          (i / 2) ⟨none, 0, none⟩).drw >>>
        (8 * ((0x1002 + i) % 4))) % 256 =
        [0xDE, 0xAD, 0xBE, 0xEF, 0x01, 0x02].getD i 0) :=
  ⟨by decide,
   c1_lane_and_round_trip ⟨0, 0, 0, 1 <<< 10, false, false⟩
    ⟨fun _ => 0, 0, 0⟩ [0xDE, 0xAD, 0xBE, 0xEF, 0x01, 0x02] 2 3 0x1002
    (by decide) rfl (by decide) (by decide) (by decide) (by decide)
    (by decide) (by decide) (by decide) rfl rfl⟩
